import Mathlib

/-!
A shallow embedding of the job execution engine of `src/app.py`
(the `mediareaparr` tag-based media cleaner): candidate selection,
per-mode deletion strategies, dry-run semantics, run-state bookkeeping
(`record_run`) and job finalization (`run_job`).

Modelling conventions:
- timestamps are integer seconds since an arbitrary UTC epoch;
- `datetime.fromisoformat` (together with the trailing-Z and timezone
  normalisation shared by `parse_iso_date` and `parse_radarr_date`) is
  supplied as an oracle `fromiso : String → Option Time`; the two Python
  wrappers differ only in their error handling, which is embedded exactly;
- each `datetime.now(timezone.utc)` call reads a monotone-free abstract
  clock `clock : Nat → Time` at a successively incremented tick;
- the remote Radarr/Sonarr HTTP API is an oracle structure whose delete
  endpoints may fail (`Except String Unit`), and every remote call is
  appended to an observable trace (`RemoteCall`), with the Boolean flag on
  a call recording whether it succeeded;
- `save_state` (best-effort file persistence whose failures the source
  swallows) is not modelled; `record_run` operates on the in-memory store.
-/

deriving instance DecidableEq for Except

namespace Mediareaparr

/-- Timestamps: integer seconds since an arbitrary UTC epoch. -/
abbrev Time := Int

/-- A Radarr/Sonarr tag object (fields `id`, `label`). -/
structure MediaTag where
  id : Nat
  label : String
deriving Repr, DecidableEq

/-- A Radarr movie record, with the fields `run_job` reads.  `added` is
`m.get("added")` (absent modelled as `none`). -/
structure Movie where
  id : Nat
  title : String
  year : Option Int
  added : Option String
  path : String
  tags : List Nat
deriving Repr, DecidableEq

/-- A Sonarr series record, with the fields `run_job` reads. -/
structure Series where
  id : Nat
  title : String
  added : Option String
  path : String
  tags : List Nat
deriving Repr, DecidableEq

/-- A Sonarr episode-file record.  `id` is `ef.get("id")` (the source
explicitly handles its absence).  `dateAdded` models the fallback chain
`ef.get("dateAdded") or ef.get("date_added") or ef.get("added") or ""`,
and `relativePath` models `ef.get("relativePath") or ef.get("path") or ""`. -/
structure EpisodeFile where
  id : Option Nat
  dateAdded : String
  relativePath : String
deriving Repr, DecidableEq

/-- One entry of `run_state["deleted"]`.  The three dict shapes the source
builds (movie, episode file, second-pass series) are folded into one record
with optional fields; a field the corresponding Python dict does not carry
stays `none`. -/
structure DeletedEntry where
  kind : String
  id : Nat
  series_id : Option Nat := none
  title : Option String := none
  series_title : Option String := none
  year : Option Int := none
  added : Option String := none
  dateAdded : Option String := none
  relativePath : Option String := none
  age_days : Option Int := none
  path : Option String := none
  deleted_at : Option Time := none
  dry_run : Bool := false
  reason : Option String := none
deriving Repr, DecidableEq

/-- The `run_state` dict built at the top of `run_job`. -/
structure RunState where
  job_id : String
  job_name : String
  app : String
  sonarr_delete_mode : Option String
  started_at : Time
  finished_at : Option Time
  duration_seconds : Option Int
  status : String
  dry_run : Bool
  tag_label : String
  days_old : Int
  delete_files : Bool
  add_import_exclusion : Bool
  candidates_found : Nat
  deleted_count : Nat
  deleted : List DeletedEntry
  errors : List String
deriving Repr, DecidableEq

/-- The persistent `state` dict: the four history views `record_run`
maintains.  Python dicts keyed by job id are modelled as association
lists. -/
structure StoreState where
  last_run : Option RunState
  last_runs : List (String × RunState)
  run_history : List RunState
  run_history_by_job : List (String × List RunState)
deriving Repr, DecidableEq

/-- Dict lookup on an association list. -/
def assocGet {α : Type} (l : List (String × α)) (k : String) : Option α :=
  (l.find? (fun p => p.1 == k)).map (fun p => p.2)

/-- Dict assignment on an association list. -/
def assocSet {α : Type} (l : List (String × α)) (k : String) (v : α) :
    List (String × α) :=
  if l.any (fun p => p.1 == k) then
    l.map (fun p => if p.1 == k then (k, v) else p)
  else l ++ [(k, v)]

/-- Default history cap: `STATE_HISTORY_LIMIT = int(os.environ.get("STATE_HISTORY_LIMIT", "20"))`. -/
def STATE_HISTORY_LIMIT : Nat := 20

/-- `record_run(state, job_id, run_state)`: replaces the global and per-job
last-run pointers and prepends to the global and per-job histories,
truncating both to `limit` entries (`history[:STATE_HISTORY_LIMIT]`). -/
def record_run (limit : Nat) (store : StoreState) (job_id : String)
    (rs : RunState) : StoreState :=
  { last_run := some rs
    last_runs := assocSet store.last_runs job_id rs
    run_history := (rs :: store.run_history).take limit
    run_history_by_job :=
      assocSet store.run_history_by_job job_id
        ((rs :: ((assocGet store.run_history_by_job job_id).getD [])).take limit) }

/-- `parse_iso_date(s)`: `None` for empty input, otherwise the oracle result
with any parse failure caught and turned into `None`. -/
def parse_iso_date (fromiso : String → Option Time) (s : String) : Option Time :=
  if s = "" then none else fromiso s

/-- `parse_radarr_date(s)`: same normalisation, but a parse failure is NOT
caught — `datetime.fromisoformat` raises and the exception propagates. -/
def parse_radarr_date (fromiso : String → Option Time) (s : String) :
    Except String Time :=
  match fromiso s with
  | some t => Except.ok t
  | none => Except.error ("Invalid isoformat string: " ++ s)

/-- `age_days = int((now - added).total_seconds() // 86400)` (floor division). -/
def age_days_of (now added : Time) : Int := Int.fdiv (now - added) 86400

/-- A remote API call as observed on the wire; the Boolean records whether
the call succeeded (`raise_for_status` did not raise). -/
inductive RemoteCall where
  | getTags : RemoteCall
  | getMovies : RemoteCall
  | getSeries : RemoteCall
  | getEpisodeFiles : Nat → Bool → RemoteCall
  | deleteMovie : Nat → Bool → RemoteCall
  | deleteEpisodeFile : Nat → Bool → RemoteCall
  | deleteSeries : Nat → Bool → RemoteCall
deriving Repr, DecidableEq

/-- Is this call one of the three mutating delete endpoints? -/
def RemoteCall.isMutating : RemoteCall → Bool
  | .deleteMovie _ _ => true
  | .deleteEpisodeFile _ _ => true
  | .deleteSeries _ _ => true
  | _ => false

/-- A delete-endpoint call that failed. -/
def RemoteCall.isFailedDelete : RemoteCall → Bool
  | .deleteMovie _ ok => !ok
  | .deleteEpisodeFile _ ok => !ok
  | .deleteSeries _ ok => !ok
  | _ => false

/-- An episode-file listing call that failed. -/
def RemoteCall.isFailedQuery : RemoteCall → Bool
  | .getEpisodeFiles _ ok => !ok
  | _ => false

/-- Did an `Except` computation succeed? -/
def exceptOk {ε α : Type} : Except ε α → Bool
  | Except.ok _ => true
  | Except.error _ => false

/-- Connection configuration (URLs already `rstrip`-ped of slashes). -/
structure Config where
  radarr_url : String
  radarr_api_key : String
  sonarr_url : String
  sonarr_api_key : String

/-- The Radarr side of the remote API, as an oracle. -/
structure RadarrRemote where
  tags : List MediaTag
  movies : List Movie
  deleteMovie : Nat → Except String Unit

/-- The Sonarr side of the remote API, as an oracle.  Episode-file listings
are queried in two phases (candidate discovery, and the fresh
`episodes_then_series` re-query after deletions), which may observe
different remote states. -/
structure SonarrRemote where
  tags : List MediaTag
  series : List Series
  episodeFilesFirst : Nat → Except String (List EpisodeFile)
  episodeFilesSecond : Nat → Except String (List EpisodeFile)
  deleteEpisodeFile : Nat → Except String Unit
  deleteSeries : Nat → Except String Unit

/-- The whole external world of one `run_job` execution. -/
structure Env where
  clock : Nat → Time
  fromiso : String → Option Time
  cfg : Config
  radarr : RadarrRemote
  sonarr : SonarrRemote

/-- A normalized job (output of `normalize_job`). -/
structure Job where
  id : String
  name : String
  app : String
  tag_label : String
  days_old : Int
  dry_run : Bool
  delete_files : Bool
  add_import_exclusion : Bool
  sonarr_delete_mode : String
deriving Repr, DecidableEq

/-- The mutable context threaded through a job: the in-memory `run_state`,
the history store, the clock tick, and the trace of remote calls so far. -/
structure Ctx where
  rs : RunState
  store : StoreState
  tick : Nat
  calls : List RemoteCall
deriving Repr, DecidableEq

/-- One `datetime.now(timezone.utc)` / `utc_now_iso()` read. -/
def Ctx.readClock (env : Env) (c : Ctx) : Time × Ctx :=
  (env.clock c.tick, { c with tick := c.tick + 1 })

/-- `record_run(state, job_id, run_state)` on the threaded context. -/
def Ctx.record (limit : Nat) (job_id : String) (c : Ctx) : Ctx :=
  { c with store := record_run limit c.store job_id c.rs }

/-- `len([d for d in run_state["deleted"] if d.get("deleted_at")])`. -/
def countDeleted (l : List DeletedEntry) : Nat :=
  (l.filter (fun d => d.deleted_at.isSome)).length

/-- The Radarr movie selection loop (lines 387-396): keep tagged movies whose
`added` is present and nonempty (the Python `if not added_str` skip catches
both cases, so the field is read through `getD ""`), parse it with
`parse_radarr_date` (an unparsable value raises, aborting selection), and
keep those strictly older than the cutoff, pairing each with its age in
whole days. -/
def selectMovieCandidates (fromiso : String → Option Time) (tag_id : Nat)
    (cutoff now : Time) : List Movie → Except String (List (Movie × Int))
  | [] => Except.ok []
  | m :: rest =>
    if tag_id ∈ m.tags then
      if m.added.getD "" = "" then
        selectMovieCandidates fromiso tag_id cutoff now rest
      else
        match parse_radarr_date fromiso (m.added.getD "") with
        | Except.error e => Except.error e
        | Except.ok added =>
          if added < cutoff then
            (selectMovieCandidates fromiso tag_id cutoff now rest).map
              (fun l => (m, age_days_of now added) :: l)
          else selectMovieCandidates fromiso tag_id cutoff now rest
    else selectMovieCandidates fromiso tag_id cutoff now rest

/-- The Sonarr `series`-mode selection loop (lines 476-482): the tagged
series with a parsable `added` (`parse_iso_date`, never raising) strictly
older than the cutoff. -/
def selectSeriesCandidates (fromiso : String → Option Time)
    (cutoff now : Time) (tagged : List Series) : List (Series × Int) :=
  tagged.filterMap (fun s =>
    match parse_iso_date fromiso (s.added.getD "") with
    | none => none
    | some added =>
      if added < cutoff then some (s, age_days_of now added) else none)

/-- An episode-file deletion candidate (the source's 4-tuple
`(series_id, episodefile, age_days, series_obj)`). -/
structure EpCand where
  sid : Nat
  ef : EpisodeFile
  age : Int
  series : Series
deriving Repr, DecidableEq

/-- The per-series episode-file eligibility filter (lines 542-549). -/
def eligibleEpisodeFiles (fromiso : String → Option Time) (cutoff now : Time)
    (s : Series) (efiles : List EpisodeFile) : List EpCand :=
  efiles.filterMap (fun ef =>
    match parse_iso_date fromiso ef.dateAdded with
    | none => none
    | some dt =>
      if dt < cutoff then some ⟨s.id, ef, age_days_of now dt, s⟩ else none)

/-- Candidate discovery for the episode-based Sonarr modes (lines 538-549):
fetch every tagged series' episode files (a fetch failure raises and aborts
the job) and flatten the eligible ones.  Also returns the trace of listing
calls made. -/
def fetchEpisodeCandidates (env : Env) (cutoff now : Time) :
    List Series → List RemoteCall × Except String (List EpCand)
  | [] => ([], Except.ok [])
  | s :: rest =>
    match env.sonarr.episodeFilesFirst s.id with
    | Except.error e => ([RemoteCall.getEpisodeFiles s.id false], Except.error e)
    | Except.ok efiles =>
      let here := eligibleEpisodeFiles env.fromiso cutoff now s efiles
      let (calls, r) := fetchEpisodeCandidates env cutoff now rest
      (RemoteCall.getEpisodeFiles s.id true :: calls,
       r.map (fun l => here ++ l))

/-- Stable insertion into a descending-sorted list: `a` goes after every
element with a strictly larger key and before the rest. -/
def insertDescBy {α : Type} (key : α → Int) (a : α) : List α → List α
  | [] => [a]
  | b :: bs => if key a < key b then b :: insertDescBy key a bs else a :: b :: bs

/-- `xs.sort(key=..., reverse=True)`: a stable descending sort by an
integer key (stable insertion sort, which agrees with Python's stable
sort on every input). -/
def sortDescBy {α : Type} (key : α → Int) (l : List α) : List α :=
  l.foldr (insertDescBy key) []

/-- `label_to_id` built by `sonarr_tags_map` (later duplicates win, empty
labels skipped), looked up at a label. -/
def sonarr_label_to_id (tags : List MediaTag) (label : String) : Option Nat :=
  (((tags.filter (fun t => !(t.label == ""))).reverse).find?
      (fun t => t.label == label)).map (fun t => t.id)

/-- The dict built for a movie candidate (lines 412-422). -/
def movieEntry (dry : Bool) (m : Movie) (age : Int) : DeletedEntry :=
  { kind := "movie", id := m.id, title := some m.title, year := m.year,
    added := m.added, age_days := some age, path := some m.path,
    deleted_at := none, dry_run := dry }

/-- The dict built for a `series`-mode candidate (lines 497-506). -/
def seriesModeEntry (dry : Bool) (s : Series) (age : Int) : DeletedEntry :=
  { kind := "series", id := s.id, title := some s.title, added := s.added,
    age_days := some age, path := some s.path, deleted_at := none,
    dry_run := dry }

/-- The dict built for an episode-file candidate (lines 572-582). -/
def episodeEntry (dry : Bool) (cand : EpCand) (efid : Nat) : DeletedEntry :=
  { kind := "episodefile", id := efid, series_id := some cand.sid,
    series_title := some cand.series.title,
    relativePath := some cand.ef.relativePath,
    dateAdded := some cand.ef.dateAdded, age_days := some cand.age,
    deleted_at := none, dry_run := dry }

/-- The dict built for a second-pass series removal (lines 623-631). -/
def secondPassEntry (dry : Bool) (s : Series) : DeletedEntry :=
  { kind := "series", id := s.id, title := some s.title, path := some s.path,
    deleted_at := none, dry_run := dry,
    reason := some "episodes_then_series_no_files_remain" }

/-- The error string of a failed Radarr movie deletion. -/
def radarrDeleteErr (id : Nat) (title : String) (e : String) : String :=
  "ERROR Radarr deleting id=" ++ toString id ++ " title=" ++ title ++ ": " ++ e

/-- The error string of a failed `series`-mode Sonarr series deletion. -/
def sonarrSeriesErr (id : Nat) (title : String) (e : String) : String :=
  "ERROR Sonarr deleting series id=" ++ toString id ++ " title=" ++ title ++ ": " ++ e

/-- The error string of a failed Sonarr episode-file deletion. -/
def sonarrEpisodeErr (efid sid : Nat) (e : String) : String :=
  "ERROR Sonarr deleting episodefile ef_id=" ++ toString efid ++
    " series_id=" ++ toString sid ++ ": " ++ e

/-- The error string of a failed second-pass remaining-files query. -/
def sonarrCheckErr (id : Nat) (title : String) (e : String) : String :=
  "ERROR Sonarr checking remaining files for series id=" ++ toString id ++
    " title=" ++ title ++ ": " ++ e

/-- The error string of a failed second-pass series removal. -/
def sonarrRemoveErr (id : Nat) (title : String) (e : String) : String :=
  "ERROR Sonarr removing series id=" ++ toString id ++ " title=" ++ title ++ ": " ++ e

/-- One iteration of the Radarr deletion loop (lines 403-446): dry-run
records the entry and short-circuits; otherwise call the delete endpoint,
and either stamp `deleted_at`, append the entry, rederive `deleted_count`
and record, or append an error string and record. -/
def movieStep (env : Env) (limit : Nat) (job_id : String) (c : Ctx)
    (p : Movie × Int) : Ctx :=
  let entry := movieEntry c.rs.dry_run p.1 p.2
  if c.rs.dry_run then
    { c with rs := { c.rs with deleted := c.rs.deleted ++ [entry] } }
  else
    match env.radarr.deleteMovie p.1.id with
    | Except.ok _ =>
      let c := { c with calls := c.calls ++ [RemoteCall.deleteMovie p.1.id true] }
      let (t, c) := c.readClock env
      let deleted := c.rs.deleted ++ [{ entry with deleted_at := some t }]
      let rs := { c.rs with deleted := deleted, deleted_count := countDeleted deleted }
      Ctx.record limit job_id { c with rs := rs }
    | Except.error e =>
      let c := { c with calls := c.calls ++ [RemoteCall.deleteMovie p.1.id false] }
      let rs := { c.rs with errors := c.rs.errors ++ [radarrDeleteErr p.1.id p.1.title e] }
      Ctx.record limit job_id { c with rs := rs }

/-- One iteration of the Sonarr `series`-mode deletion loop (lines 489-531). -/
def seriesStep (env : Env) (limit : Nat) (job_id : String) (c : Ctx)
    (p : Series × Int) : Ctx :=
  let entry := seriesModeEntry c.rs.dry_run p.1 p.2
  if c.rs.dry_run then
    { c with rs := { c.rs with deleted := c.rs.deleted ++ [entry] } }
  else
    match env.sonarr.deleteSeries p.1.id with
    | Except.ok _ =>
      let c := { c with calls := c.calls ++ [RemoteCall.deleteSeries p.1.id true] }
      let (t, c) := c.readClock env
      let deleted := c.rs.deleted ++ [{ entry with deleted_at := some t }]
      let rs := { c.rs with deleted := deleted, deleted_count := countDeleted deleted }
      Ctx.record limit job_id { c with rs := rs }
    | Except.error e =>
      let c := { c with calls := c.calls ++ [RemoteCall.deleteSeries p.1.id false] }
      let rs := { c.rs with errors := c.rs.errors ++ [sonarrSeriesErr p.1.id p.1.title e] }
      Ctx.record limit job_id { c with rs := rs }

/-- One iteration of the episode-file deletion loop (lines 560-603): an
episode file without an `id` is skipped outright (before the dry-run
check); otherwise as for movies. -/
def episodeStep (env : Env) (limit : Nat) (job_id : String) (c : Ctx)
    (cand : EpCand) : Ctx :=
  match cand.ef.id with
  | none => c
  | some efid =>
    let entry := episodeEntry c.rs.dry_run cand efid
    if c.rs.dry_run then
      { c with rs := { c.rs with deleted := c.rs.deleted ++ [entry] } }
    else
      match env.sonarr.deleteEpisodeFile efid with
      | Except.ok _ =>
        let c := { c with calls := c.calls ++ [RemoteCall.deleteEpisodeFile efid true] }
        let (t, c) := c.readClock env
        let deleted := c.rs.deleted ++ [{ entry with deleted_at := some t }]
        let rs := { c.rs with deleted := deleted, deleted_count := countDeleted deleted }
        Ctx.record limit job_id { c with rs := rs }
      | Except.error e =>
        let c := { c with calls := c.calls ++ [RemoteCall.deleteEpisodeFile efid false] }
        let rs := { c.rs with errors := c.rs.errors ++ [sonarrEpisodeErr efid cand.sid e] }
        Ctx.record limit job_id { c with rs := rs }

/-- One iteration of the `episodes_then_series` second pass (lines 607-662):
re-query the series' remaining episode files (a query failure is caught and
recorded as an error); when none remain, record a removal entry (dry-run)
or call the series delete endpoint, handling its failure in place. -/
def secondPassStep (env : Env) (limit : Nat) (job_id : String) (c : Ctx)
    (s : Series) : Ctx :=
  match env.sonarr.episodeFilesSecond s.id with
  | Except.error e =>
    let c := { c with calls := c.calls ++ [RemoteCall.getEpisodeFiles s.id false] }
    let rs := { c.rs with errors := c.rs.errors ++ [sonarrCheckErr s.id s.title e] }
    Ctx.record limit job_id { c with rs := rs }
  | Except.ok remaining =>
    let c := { c with calls := c.calls ++ [RemoteCall.getEpisodeFiles s.id true] }
    if remaining.isEmpty then
      let entry := secondPassEntry c.rs.dry_run s
      if c.rs.dry_run then
        { c with rs := { c.rs with deleted := c.rs.deleted ++ [entry] } }
      else
        match env.sonarr.deleteSeries s.id with
        | Except.ok _ =>
          let c := { c with calls := c.calls ++ [RemoteCall.deleteSeries s.id true] }
          let (t, c) := c.readClock env
          let deleted := c.rs.deleted ++ [{ entry with deleted_at := some t }]
          let rs := { c.rs with deleted := deleted, deleted_count := countDeleted deleted }
          Ctx.record limit job_id { c with rs := rs }
        | Except.error e =>
          let c := { c with calls := c.calls ++ [RemoteCall.deleteSeries s.id false] }
          let rs := { c.rs with errors := c.rs.errors ++ [sonarrRemoveErr s.id s.title e] }
          Ctx.record limit job_id { c with rs := rs }
    else c

/-- The Radarr deletion loop over the sorted candidates. -/
def runMovieDeletions (env : Env) (limit : Nat) (job_id : String)
    (cands : List (Movie × Int)) (c : Ctx) : Ctx :=
  cands.foldl (movieStep env limit job_id) c

/-- The `series`-mode deletion loop over the sorted candidates. -/
def runSeriesDeletions (env : Env) (limit : Nat) (job_id : String)
    (cands : List (Series × Int)) (c : Ctx) : Ctx :=
  cands.foldl (seriesStep env limit job_id) c

/-- The episode-file deletion loop over the sorted candidates. -/
def runEpisodeDeletions (env : Env) (limit : Nat) (job_id : String)
    (cands : List EpCand) (c : Ctx) : Ctx :=
  cands.foldl (episodeStep env limit job_id) c

/-- The `episodes_then_series` second pass over every tagged series. -/
def runSecondPass (env : Env) (limit : Nat) (job_id : String)
    (tagged : List Series) (c : Ctx) : Ctx :=
  tagged.foldl (secondPassStep env limit job_id) c

/-- The Radarr branch of `run_job` (lines 366-446).  An `Except.error`
outcome models an exception propagating to the job-level handler, with the
context at the point of the raise.  The `now` read by the selection loop is
the clock at the context's current tick (the appended listing calls do not
advance the tick; only `datetime.now` reads do). -/
def runRadarr (env : Env) (limit : Nat) (job : Job) (cutoff : Time)
    (c : Ctx) : Ctx × Except String Unit :=
  if env.cfg.radarr_url = "" then
    (c, Except.error "RADARR_URL is required, e.g. http://radarr:7878")
  else if env.cfg.radarr_api_key = "" then
    (c, Except.error "RADARR_API_KEY is required")
  else
    match env.radarr.tags.find? (fun t => t.label == job.tag_label) with
    | none =>
      ({ c with calls := c.calls ++ [RemoteCall.getTags] },
       Except.error ("Tag " ++ job.tag_label ++
        " not found in Radarr. Create it and tag movies first."))
    | some tag =>
      match selectMovieCandidates env.fromiso tag.id cutoff (env.clock c.tick)
          env.radarr.movies with
      | Except.error e =>
        ({ c with
            tick := c.tick + 1
            calls := c.calls ++ [RemoteCall.getTags, RemoteCall.getMovies] },
         Except.error e)
      | Except.ok cands =>
        let sorted := sortDescBy (fun p => p.2) cands
        let c2 : Ctx := { c with
          tick := c.tick + 1
          calls := c.calls ++ [RemoteCall.getTags, RemoteCall.getMovies] }
        let c3 := Ctx.record limit job.id
          { c2 with rs := { c2.rs with candidates_found := sorted.length } }
        (runMovieDeletions env limit job.id sorted c3, Except.ok ())

/-- `label_to_id.get(tag_label)` with Python falsiness: an absent tag and a
tag with id `0` both come out as `0` (both fail the `if not tag_id` check). -/
def sonarrTagId (env : Env) (job : Job) : Nat :=
  (sonarr_label_to_id env.sonarr.tags job.tag_label).getD 0

/-- The tagged series of a Sonarr job (line 469). -/
def sonarrTagged (env : Env) (job : Job) : List Series :=
  env.sonarr.series.filter (fun s => s.tags.contains (sonarrTagId env job))

/-- The Sonarr branch of `run_job` (lines 448-662).  Note the Python tag
check `if not tag_id` also treats a tag id of `0` as missing. -/
def runSonarr (env : Env) (limit : Nat) (job : Job) (cutoff : Time)
    (c : Ctx) : Ctx × Except String Unit :=
  if env.cfg.sonarr_url = "" then
    (c, Except.error "SONARR_URL is required, e.g. http://sonarr:8989")
  else if env.cfg.sonarr_api_key = "" then
    (c, Except.error "SONARR_API_KEY is required")
  else if sonarrTagId env job = 0 then
    ({ c with calls := c.calls ++ [RemoteCall.getTags] },
     Except.error ("Tag " ++ job.tag_label ++
      " not found in Sonarr. Create it and tag series first."))
  else
    let c2 : Ctx := { c with
      tick := c.tick + 1
      calls := c.calls ++ [RemoteCall.getTags, RemoteCall.getSeries] }
    if job.sonarr_delete_mode = "series" then
      let sorted := sortDescBy (fun p => p.2)
        (selectSeriesCandidates env.fromiso cutoff (env.clock c.tick)
          (sonarrTagged env job))
      let c3 := Ctx.record limit job.id
        { c2 with rs := { c2.rs with candidates_found := sorted.length } }
      (runSeriesDeletions env limit job.id sorted c3, Except.ok ())
    else
      match (fetchEpisodeCandidates env cutoff (env.clock c.tick)
          (sonarrTagged env job)).2 with
      | Except.error e =>
        ({ c2 with calls := c2.calls ++
            (fetchEpisodeCandidates env cutoff (env.clock c.tick)
              (sonarrTagged env job)).1 },
         Except.error e)
      | Except.ok cands =>
        let sorted := sortDescBy (fun cand => cand.age) cands
        let c3 := Ctx.record limit job.id
          { c2 with
            calls := c2.calls ++
              (fetchEpisodeCandidates env cutoff (env.clock c.tick)
                (sonarrTagged env job)).1,
            rs := { c2.rs with candidates_found := sorted.length } }
        let c4 := runEpisodeDeletions env limit job.id sorted c3
        if job.sonarr_delete_mode = "episodes_then_series" then
          (runSecondPass env limit job.id (sonarrTagged env job) c4, Except.ok ())
        else (c4, Except.ok ())

/-- The body of `run_job`'s big `try` block (lines 359-667): compute the
cutoff, then dispatch on the application. -/
def runBody (env : Env) (limit : Nat) (job : Job) (c : Ctx) :
    Ctx × Except String Unit :=
  let cutoff := env.clock c.tick - job.days_old * 86400
  let c1 : Ctx := { c with tick := c.tick + 1 }
  if job.app = "radarr" then runRadarr env limit job cutoff c1
  else if job.app = "sonarr" then runSonarr env limit job cutoff c1
  else (c1, Except.error ("Unknown APP " ++ job.app))

/-- The initial `run_state` dict (lines 332-354). -/
def initialRunState (job : Job) (started : Time) : RunState :=
  { job_id := job.id, job_name := job.name, app := job.app,
    sonarr_delete_mode :=
      if job.app = "sonarr" then some job.sonarr_delete_mode else none,
    started_at := started, finished_at := none, duration_seconds := none,
    status := "running", dry_run := job.dry_run, tag_label := job.tag_label,
    days_old := job.days_old, delete_files := job.delete_files,
    add_import_exclusion := job.add_import_exclusion,
    candidates_found := 0, deleted_count := 0, deleted := [], errors := [] }

/-- The outcome of one `run_job` execution: the Python return value or the
re-raised exception, the final (post-`finally`) run state, the history
store, and the trace of remote calls. -/
structure RunResult where
  result : Except String RunState
  finalState : RunState
  store : StoreState
  calls : List RemoteCall
deriving Repr, DecidableEq

/-- `run_job(cfg, state, job)` (lines 315-681): record the initial running
state, execute the body, classify the status (`ok` / `ok_with_errors` on
normal completion; `failed` plus the exception message appended to `errors`
on an exception, which is re-raised), and in all cases finalize: stamp
`finished_at`, compute `duration_seconds`, and record the final state. -/
def run_job (env : Env) (limit : Nat) (job : Job) (store0 : StoreState) :
    RunResult :=
  let started := env.clock 0
  let rs0 := initialRunState job started
  let store1 := record_run limit store0 job.id rs0
  let c0 : Ctx := { rs := rs0, store := store1, tick := 1, calls := [] }
  let br := runBody env limit job c0
  let c1 := br.1
  let rs2 :=
    match br.2 with
    | Except.ok _ =>
      { c1.rs with status := if c1.rs.errors.isEmpty then "ok" else "ok_with_errors" }
    | Except.error e =>
      { c1.rs with status := "failed", errors := c1.rs.errors ++ [e] }
  let finished := env.clock c1.tick
  let rs3 :=
    { rs2 with
      finished_at := some finished
      duration_seconds := some (finished - started) }
  let store2 := record_run limit c1.store job.id rs3
  { result :=
      match br.2 with
      | Except.ok _ => Except.ok rs3
      | Except.error e => Except.error e,
    finalState := rs3, store := store2, calls := c1.calls }

/-- A tiny concrete `fromisoformat` oracle for witnesses: the strings
`day0`, `day10`, `day40` parse to midnight of those days; everything else
is unparsable. -/
def tIso : String → Option Time := fun s =>
  if s = "day0" then some 0
  else if s = "day10" then some (10 * 86400)
  else if s = "day40" then some (40 * 86400)
  else none

/-- A fully-populated connection configuration. -/
def baseCfg : Config :=
  { radarr_url := "http://radarr:7878", radarr_api_key := "rkey",
    sonarr_url := "http://sonarr:8989", sonarr_api_key := "skey" }

/-- Delete endpoints that always succeed. -/
def okDelete : Nat → Except String Unit := fun _ => Except.ok ()

/-- Delete endpoints that always fail. -/
def failDelete : Nat → Except String Unit := fun _ => Except.error "HTTP 500"

/-- Episode-file listings that always return the empty list. -/
def noEpFiles : Nat → Except String (List EpisodeFile) := fun _ => Except.ok []

/-- A Sonarr remote with no data at all. -/
def emptySonarr : SonarrRemote :=
  { tags := [], series := [], episodeFilesFirst := noEpFiles,
    episodeFilesSecond := noEpFiles, deleteEpisodeFile := okDelete,
    deleteSeries := okDelete }

/-- A Radarr remote with no data at all. -/
def emptyRadarr : RadarrRemote :=
  { tags := [], movies := [], deleteMovie := okDelete }

/-- An empty history store. -/
def emptyStore : StoreState :=
  { last_run := none, last_runs := [], run_history := [],
    run_history_by_job := [] }

/-- A movie tagged `1`, added on day 0. -/
def oldMovie : Movie :=
  { id := 7, title := "Old", year := some 1990, added := some "day0",
    path := "/m/old", tags := [1] }

/-- A Radarr environment: tag `auto` has id 1, one old tagged movie, the
clock frozen at day 50, deletions succeeding. -/
def radarrEnv1 : Env :=
  { clock := fun _ => 50 * 86400, fromiso := tIso, cfg := baseCfg,
    radarr := { tags := [⟨1, "auto"⟩], movies := [oldMovie],
                deleteMovie := okDelete },
    sonarr := emptySonarr }

/-- A Radarr job on tag `auto` with a 30-day threshold. -/
def jobR (dry : Bool) : Job :=
  { id := "j1", name := "Job1", app := "radarr", tag_label := "auto",
    days_old := 30, dry_run := dry, delete_files := true,
    add_import_exclusion := false, sonarr_delete_mode := "episodes_only" }

/-- A Sonarr job on tag `auto` with a 30-day threshold and the given mode. -/
def jobS (dry : Bool) (mode : String) : Job :=
  { id := "j2", name := "Job2", app := "sonarr", tag_label := "auto",
    days_old := 30, dry_run := dry, delete_files := true,
    add_import_exclusion := false, sonarr_delete_mode := mode }

/-- A tagged movie whose `added` string does not parse. -/
def badMovie : Movie :=
  { id := 9, title := "Bad", year := none, added := some "garbage",
    path := "/m/bad", tags := [1] }

/-- Like `radarrEnv1`, but the one tagged movie has an unparsable date. -/
def radarrEnvBad : Env :=
  { radarrEnv1 with radarr :=
    { tags := [⟨1, "auto"⟩], movies := [badMovie], deleteMovie := okDelete } }

/-- Like `radarrEnv1`, but the delete endpoint always fails. -/
def radarrEnvFail : Env :=
  { radarrEnv1 with radarr :=
    { tags := [⟨1, "auto"⟩], movies := [oldMovie], deleteMovie := failDelete } }

/-- An old episode file whose remote record carries no id. -/
def noIdFile : EpisodeFile :=
  { id := none, dateAdded := "day0", relativePath := "ep1.mkv" }

/-- A series tagged `3`. -/
def taggedSeries1 : Series :=
  { id := 5, title := "Show", added := some "day0", path := "/tv/show",
    tags := [3] }

/-- A Sonarr environment whose only tagged series has one old, id-less
episode file. -/
def sonarrEnvNoId : Env :=
  { clock := fun _ => 50 * 86400, fromiso := tIso, cfg := baseCfg,
    radarr := emptyRadarr,
    sonarr := { tags := [⟨3, "auto"⟩], series := [taggedSeries1],
                episodeFilesFirst := fun _ => Except.ok [noIdFile],
                episodeFilesSecond := fun _ => Except.ok [noIdFile],
                deleteEpisodeFile := okDelete, deleteSeries := okDelete } }

/-- A Sonarr environment where the second-pass remaining-files query always
fails (and there are no episode candidates). -/
def sonarrEnvQFail : Env :=
  { clock := fun _ => 50 * 86400, fromiso := tIso, cfg := baseCfg,
    radarr := emptyRadarr,
    sonarr := { tags := [⟨3, "auto"⟩], series := [taggedSeries1],
                episodeFilesFirst := fun _ => Except.ok [],
                episodeFilesSecond := fun _ => Except.error "timeout",
                deleteEpisodeFile := okDelete, deleteSeries := okDelete } }

/-- A Sonarr environment where the tagged series has no episode files at
all, so `episodes_then_series` removes it. -/
def sonarrEnvC2 : Env :=
  { clock := fun _ => 50 * 86400, fromiso := tIso, cfg := baseCfg,
    radarr := emptyRadarr,
    sonarr := { tags := [⟨3, "auto"⟩], series := [taggedSeries1],
                episodeFilesFirst := fun _ => Except.ok [],
                episodeFilesSecond := fun _ => Except.ok [],
                deleteEpisodeFile := okDelete, deleteSeries := okDelete } }

/-- A throwaway run state for populating history fixtures. -/
def rsDummy : RunState := initialRunState (jobR true) 0

/-- A second, distinguishable run state. -/
def rsD2 : RunState := initialRunState (jobR false) 86400

/-- A store whose global and per-job histories are already full at 20. -/
def store20 : StoreState :=
  { last_run := none, last_runs := [],
    run_history := List.replicate 20 rsDummy,
    run_history_by_job := [("j1", List.replicate 20 rsDummy)] }

/-- The wire footprint of one second-pass iteration: the fresh query, then
the series delete exactly when the query succeeded with no files left and
the job is not a dry run. -/
def secondPassCalls (env : Env) (dry : Bool) (s : Series) : List RemoteCall :=
  match env.sonarr.episodeFilesSecond s.id with
  | Except.error _ => [RemoteCall.getEpisodeFiles s.id false]
  | Except.ok remaining =>
    if remaining.isEmpty then
      if dry then [RemoteCall.getEpisodeFiles s.id true]
      else [RemoteCall.getEpisodeFiles s.id true,
            RemoteCall.deleteSeries s.id (exceptOk (env.sonarr.deleteSeries s.id))]
    else [RemoteCall.getEpisodeFiles s.id true]

/-- The dry-run would-delete entries of the episode loop: one per candidate
that carries a remote id. -/
def epDryEntries (cands : List EpCand) : List DeletedEntry :=
  cands.filterMap (fun cand => cand.ef.id.map (fun efid => episodeEntry true cand efid))

/-- The delete calls the episode loop makes outside dry-run: one per
candidate with a present id. -/
def epDeleteCalls (env : Env) (cands : List EpCand) : List RemoteCall :=
  cands.filterMap (fun cand => cand.ef.id.map (fun efid =>
    RemoteCall.deleteEpisodeFile efid (exceptOk (env.sonarr.deleteEpisodeFile efid))))

/-- The dry-run would-remove entries of the second pass: one per tagged
series whose fresh query reported no remaining files. -/
def secondPassDryEntries (env : Env) (tagged : List Series) : List DeletedEntry :=
  tagged.filterMap (fun s =>
    if env.sonarr.episodeFilesSecond s.id = Except.ok [] then
      some (secondPassEntry true s) else none)

/-- Bookkeeping invariant of a run state: `deleted_count` is always the
number of entries whose `deleted_at` is set. -/
def rsCountOK (rs : RunState) : Prop := rs.deleted_count = countDeleted rs.deleted

/-- Every run state in the global history either predates this run or
satisfies the bookkeeping invariant. -/
def histOK (store0 st : StoreState) : Prop :=
  ∀ rs ∈ st.run_history, rs ∈ store0.run_history ∨ rsCountOK rs

/-- Every recorded entry is either a successful deletion (timestamp set) or
a dry-run would-delete entry. -/
def entriesOK (l : List DeletedEntry) : Prop :=
  ∀ e ∈ l, e.deleted_at.isSome = true ∨ e.dry_run = true

/-- The conjunction of context invariants maintained across a run (`d` is
the job's dry-run flag). -/
def InvA (store0 : StoreState) (d : Bool) (c : Ctx) : Prop :=
  c.rs.dry_run = d ∧ rsCountOK c.rs ∧ histOK store0 c.store ∧
  entriesOK c.rs.deleted ∧
  (d = true → (∀ e ∈ c.rs.deleted, e.deleted_at = none) ∧
    c.calls.countP (fun x => x.isMutating) = 0)

/-- Errors-vs-calls balance: one recorded error per failed delete call and
per failed remaining-files query. -/
def EMC (c : Ctx) : Prop :=
  c.rs.errors.length =
    c.calls.countP (fun x => x.isFailedDelete) +
    c.calls.countP (fun x => x.isFailedQuery)

/-- The context at the top of `run_job`'s `try` block: the initial running
state has been built and recorded, one clock tick consumed. -/
def runCtx0 (env : Env) (limit : Nat) (job : Job) (store0 : StoreState) : Ctx :=
  { rs := initialRunState job (env.clock 0)
    store := record_run limit store0 job.id (initialRunState job (env.clock 0))
    tick := 1
    calls := [] }

/-- The finalized run state produced by the `except`/`finally` epilogue of
`run_job`, as a function of the body's outcome. -/
def runFinalRS (env : Env) (br : Ctx × Except String Unit) :
    RunState :=
  { (match br.2 with
     | Except.ok _ =>
       { br.1.rs with
         status := if br.1.rs.errors.isEmpty then "ok" else "ok_with_errors" }
     | Except.error e =>
       { br.1.rs with status := "failed", errors := br.1.rs.errors ++ [e] }) with
    finished_at := some (env.clock br.1.tick)
    duration_seconds := some (env.clock br.1.tick - env.clock 0) }

/-- A run state with its volatile fields normalized: what remains are the
fields written once at initialisation and never rewritten by the body
(identities, echoed parameters, `started_at`).  Equality of `rsCore`s
states that a transformation only touched the volatile fields. -/
def rsCore (rs : RunState) : RunState :=
  { rs with
    status := "running"
    finished_at := none
    duration_seconds := none
    candidates_found := 0
    deleted_count := 0
    deleted := []
    errors := [] }

/-- The per-movie eligibility decision implicit in the selection loop. -/
def pickMovie (fromiso : String → Option Time) (tag_id : Nat)
    (cutoff now : Time) (m : Movie) : Option (Movie × Int) :=
  if tag_id ∈ m.tags then
    if m.added.getD "" = "" then none
    else
      match fromiso (m.added.getD "") with
      | none => none
      | some t => if t < cutoff then some (m, age_days_of now t) else none
  else none

/-- Invariant preservation along a `foldl` (a Python `for` loop). -/
theorem foldl_preserve {α β : Type} {f : β → α → β} {P : β → Prop}
    (h : ∀ b a, P b → P (f b a)) :
    ∀ (l : List α) (b : β), P b → P (l.foldl f b) := by
  intro l
  induction l with
  | nil => intro b hb; simpa using hb
  | cons x xs ih => intro b hb; simpa using ih (f b x) (h b x hb)

/-- After an in-place dict update of key `k`, looking up `k` finds the new
value. -/
theorem assocGet_mapSet {α : Type} (k : String) (v : α) :
    ∀ l : List (String × α), l.any (fun p => p.1 == k) = true →
      assocGet (l.map (fun p => if p.1 == k then (k, v) else p)) k = some v := by
  intro l
  induction l with
  | nil => intro h; simp at h
  | cons q l ih =>
    intro h
    simp only [List.any_cons, Bool.or_eq_true] at h
    by_cases hq : (q.1 == k) = true
    · simp only [List.map_cons, if_pos hq]
      unfold assocGet
      rw [List.find?_cons_of_pos _ (by simp)]
      rfl
    · simp only [List.map_cons, if_neg hq]
      have h' := h.resolve_left hq
      unfold assocGet
      rw [List.find?_cons_of_neg _ (by simpa using hq)]
      exact ih h'

/-- Appending a fresh dict binding of key `k` makes lookups of `k` find it. -/
theorem assocGet_appendNew {α : Type} (k : String) (v : α) :
    ∀ l : List (String × α), l.any (fun p => p.1 == k) = false →
      assocGet (l ++ [(k, v)]) k = some v := by
  intro l
  induction l with
  | nil => simp [assocGet, List.find?]
  | cons q l ih =>
    intro h
    simp only [List.any_cons, Bool.or_eq_false_iff] at h
    rw [List.cons_append]
    unfold assocGet
    rw [List.find?_cons_of_neg _ (by simp [h.1])]
    exact ih h.2

/-- Looking up the key just assigned returns the assigned value. -/
theorem assocGet_assocSet {α : Type} (l : List (String × α)) (k : String)
    (v : α) : assocGet (assocSet l k v) k = some v := by
  unfold assocSet
  by_cases h : l.any (fun p => p.1 == k) = true
  · rw [if_pos h]; exact assocGet_mapSet k v l h
  · rw [if_neg h]
    exact assocGet_appendNew k v l (Bool.eq_false_iff.mpr h)

/-- Membership in a stable descending insertion. -/
theorem mem_insertDescBy {α : Type} (key : α → Int) (a x : α) :
    ∀ l : List α, x ∈ insertDescBy key a l ↔ x = a ∨ x ∈ l := by
  intro l
  induction l with
  | nil => simp [insertDescBy]
  | cons b bs ih =>
    by_cases h : key a < key b
    · simp only [insertDescBy, if_pos h, List.mem_cons, ih]
      tauto
    · simp only [insertDescBy, if_neg h, List.mem_cons]

/-- Inserting into a descending-sorted list keeps it descending-sorted. -/
theorem pairwise_insertDescBy {α : Type} (key : α → Int) (a : α) :
    ∀ l : List α, l.Pairwise (fun x y => key y ≤ key x) →
      (insertDescBy key a l).Pairwise (fun x y => key y ≤ key x) := by
  intro l
  induction l with
  | nil => intro _; simp [insertDescBy]
  | cons b bs ih =>
    intro hp
    rw [List.pairwise_cons] at hp
    obtain ⟨hb, hbs⟩ := hp
    by_cases h : key a < key b
    · rw [insertDescBy, if_pos h, List.pairwise_cons]
      refine ⟨?_, ih hbs⟩
      intro x hx
      rcases (mem_insertDescBy key a x bs).mp hx with rfl | hx
      · exact le_of_lt h
      · exact hb x hx
    · rw [insertDescBy, if_neg h, List.pairwise_cons]
      refine ⟨?_, List.pairwise_cons.mpr ⟨hb, hbs⟩⟩
      intro x hx
      rcases List.mem_cons.mp hx with rfl | hx
      · exact le_of_not_lt h
      · exact le_trans (hb x hx) (le_of_not_lt h)

/-- `sortDescBy` produces a list that is descending in the key. -/
theorem sortDescBy_pairwise {α : Type} (key : α → Int) (l : List α) :
    (sortDescBy key l).Pairwise (fun x y => key y ≤ key x) := by
  unfold sortDescBy
  induction l with
  | nil => simp
  | cons x xs ih => exact pairwise_insertDescBy key x _ ih

/-- Appending an entry without a deletion timestamp leaves the
successfully-deleted count unchanged. -/
theorem countDeleted_append_none (l : List DeletedEntry) (e : DeletedEntry)
    (h : e.deleted_at = none) : countDeleted (l ++ [e]) = countDeleted l := by
  unfold countDeleted
  rw [List.filter_append]
  simp [List.filter, h]

/-- If every entry has a null `deleted_at`, the derived count is zero. -/
theorem countDeleted_eq_zero (l : List DeletedEntry)
    (h : ∀ e ∈ l, e.deleted_at = none) : countDeleted l = 0 := by
  unfold countDeleted
  rw [List.length_eq_zero, List.filter_eq_nil_iff]
  intro e he
  simp [h e he]

/-- Pushing onto a full history of size `n` keeps the new head and drops
exactly the last (oldest-by-position) element. -/
theorem take_cons_of_length {α : Type} (a : α) (l : List α) (n : Nat)
    (hlen : l.length = n) (hpos : 0 < n) :
    (a :: l).take n = a :: l.dropLast := by
  cases n with
  | zero => omega
  | succ m =>
    rw [List.take_succ_cons, List.dropLast_eq_take, hlen]
    rfl

/-- In dry-run, a movie step only appends the would-delete entry. -/
theorem movieStep_dry (env : Env) (limit : Nat) (jid : String) (c : Ctx)
    (p : Movie × Int) (h : c.rs.dry_run = true) :
    movieStep env limit jid c p =
      { c with rs :=
        { c.rs with deleted := c.rs.deleted ++ [movieEntry true p.1 p.2] } } := by
  unfold movieStep
  rw [h]
  simp

/-- In dry-run, a `series`-mode step only appends the would-delete entry. -/
theorem seriesStep_dry (env : Env) (limit : Nat) (jid : String) (c : Ctx)
    (p : Series × Int) (h : c.rs.dry_run = true) :
    seriesStep env limit jid c p =
      { c with rs :=
        { c.rs with deleted := c.rs.deleted ++ [seriesModeEntry true p.1 p.2] } } := by
  unfold seriesStep
  rw [h]
  simp

/-- An episode-file candidate with no remote id is skipped outright. -/
theorem episodeStep_skip (env : Env) (limit : Nat) (jid : String) (c : Ctx)
    (cand : EpCand) (h : cand.ef.id = none) :
    episodeStep env limit jid c cand = c := by
  unfold episodeStep
  rw [h]

/-- In dry-run, an episode step with a present id only appends the
would-delete entry. -/
theorem episodeStep_dry (env : Env) (limit : Nat) (jid : String) (c : Ctx)
    (cand : EpCand) (efid : Nat) (hid : cand.ef.id = some efid)
    (h : c.rs.dry_run = true) :
    episodeStep env limit jid c cand =
      { c with rs :=
        { c.rs with deleted := c.rs.deleted ++ [episodeEntry true cand efid] } } := by
  unfold episodeStep
  rw [hid, h]
  simp

/-- The dry-run flag of the run state is never written by a movie step. -/
theorem movieStep_dry_run (env : Env) (limit : Nat) (jid : String) (c : Ctx)
    (p : Movie × Int) :
    (movieStep env limit jid c p).rs.dry_run = c.rs.dry_run := by
  unfold movieStep
  split <;> [skip; split] <;> simp [Ctx.record, Ctx.readClock]

/-- The dry-run flag of the run state is never written by a series step. -/
theorem seriesStep_dry_run (env : Env) (limit : Nat) (jid : String) (c : Ctx)
    (p : Series × Int) :
    (seriesStep env limit jid c p).rs.dry_run = c.rs.dry_run := by
  unfold seriesStep
  split <;> [skip; split] <;> simp [Ctx.record, Ctx.readClock]

/-- The dry-run flag of the run state is never written by an episode step. -/
theorem episodeStep_dry_run (env : Env) (limit : Nat) (jid : String) (c : Ctx)
    (cand : EpCand) :
    (episodeStep env limit jid c cand).rs.dry_run = c.rs.dry_run := by
  unfold episodeStep
  split
  · rfl
  · split <;> [skip; split] <;> simp [Ctx.record, Ctx.readClock]

/-- The dry-run flag of the run state is never written by a second-pass
step. -/
theorem secondPassStep_dry_run (env : Env) (limit : Nat) (jid : String)
    (c : Ctx) (s : Series) :
    (secondPassStep env limit jid c s).rs.dry_run = c.rs.dry_run := by
  unfold secondPassStep
  rcases hq : env.sonarr.episodeFilesSecond s.id with e | remaining
  · simp [Ctx.record]
  · by_cases hr : remaining.isEmpty
    · by_cases hd : c.rs.dry_run = true
      · simp [hr, hd]
      · rw [Bool.not_eq_true] at hd
        rcases hs : env.sonarr.deleteSeries s.id with _ | e <;>
          simp [hr, hd, hs, Ctx.record, Ctx.readClock]
    · simp [hr]

/-- Outside dry-run, a movie step adds exactly one delete call, whose
success flag is the endpoint's outcome. -/
theorem movieStep_calls (env : Env) (limit : Nat) (jid : String) (c : Ctx)
    (p : Movie × Int) (h : c.rs.dry_run = false) :
    (movieStep env limit jid c p).calls =
      c.calls ++ [RemoteCall.deleteMovie p.1.id
        (exceptOk (env.radarr.deleteMovie p.1.id))] := by
  unfold movieStep
  rw [h]
  rcases hd : env.radarr.deleteMovie p.1.id with _ | e <;>
    simp [Ctx.record, Ctx.readClock, exceptOk, hd]

/-- Outside dry-run, a series step adds exactly one delete call. -/
theorem seriesStep_calls (env : Env) (limit : Nat) (jid : String) (c : Ctx)
    (p : Series × Int) (h : c.rs.dry_run = false) :
    (seriesStep env limit jid c p).calls =
      c.calls ++ [RemoteCall.deleteSeries p.1.id
        (exceptOk (env.sonarr.deleteSeries p.1.id))] := by
  unfold seriesStep
  rw [h]
  rcases hd : env.sonarr.deleteSeries p.1.id with _ | e <;>
    simp [Ctx.record, Ctx.readClock, exceptOk, hd]

/-- Outside dry-run, an episode step with a present id adds exactly one
delete call. -/
theorem episodeStep_calls (env : Env) (limit : Nat) (jid : String) (c : Ctx)
    (cand : EpCand) (efid : Nat) (hid : cand.ef.id = some efid)
    (h : c.rs.dry_run = false) :
    (episodeStep env limit jid c cand).calls =
      c.calls ++ [RemoteCall.deleteEpisodeFile efid
        (exceptOk (env.sonarr.deleteEpisodeFile efid))] := by
  unfold episodeStep
  rw [hid, h]
  rcases hd : env.sonarr.deleteEpisodeFile efid with _ | e <;>
    simp [Ctx.record, Ctx.readClock, exceptOk, hd]

/-- A second-pass step appends exactly its wire footprint. -/
theorem secondPassStep_calls (env : Env) (limit : Nat) (jid : String)
    (c : Ctx) (s : Series) :
    (secondPassStep env limit jid c s).calls =
      c.calls ++ secondPassCalls env c.rs.dry_run s := by
  unfold secondPassStep secondPassCalls
  rcases hq : env.sonarr.episodeFilesSecond s.id with e | remaining
  · simp [Ctx.record]
  · by_cases hr : remaining.isEmpty
    · by_cases hd : c.rs.dry_run = true
      · simp [hr, hd]
      · rw [Bool.not_eq_true] at hd
        rcases hs : env.sonarr.deleteSeries s.id with _ | e <;>
          simp [hr, hd, hs, Ctx.record, Ctx.readClock, exceptOk]
    · simp [hr]

/-- In dry-run, a second-pass step appends the would-remove series entry
exactly when the fresh query reports no remaining files. -/
theorem secondPassStep_dry_deleted (env : Env) (limit : Nat) (jid : String)
    (c : Ctx) (s : Series) (h : c.rs.dry_run = true) :
    (secondPassStep env limit jid c s).rs.deleted =
      c.rs.deleted ++
        (if env.sonarr.episodeFilesSecond s.id = Except.ok [] then
          [secondPassEntry true s] else []) := by
  unfold secondPassStep
  rcases hq : env.sonarr.episodeFilesSecond s.id with e | remaining
  · simp [Ctx.record]
  · by_cases hr : remaining.isEmpty
    · rw [List.isEmpty_iff] at hr
      subst hr
      simp [h]
    · have hne : remaining ≠ [] := by simpa [List.isEmpty_iff] using hr
      simp [hr, hne]

/-- Closed form of a successful movie deletion step. -/
theorem movieStep_ok_eq (env : Env) (limit : Nat) (jid : String) (c : Ctx)
    (p : Movie × Int) (h : c.rs.dry_run = false) (u : Unit)
    (hdel : env.radarr.deleteMovie p.1.id = Except.ok u) :
    movieStep env limit jid c p =
      Ctx.record limit jid
        { rs := { c.rs with
            deleted := c.rs.deleted ++
              [{ movieEntry false p.1 p.2 with deleted_at := some (env.clock c.tick) }],
            deleted_count := countDeleted (c.rs.deleted ++
              [{ movieEntry false p.1 p.2 with deleted_at := some (env.clock c.tick) }]) },
          store := c.store, tick := c.tick + 1,
          calls := c.calls ++ [RemoteCall.deleteMovie p.1.id true] } := by
  unfold movieStep
  rw [h, hdel]
  simp [Ctx.record, Ctx.readClock]

/-- Closed form of a failed movie deletion step. -/
theorem movieStep_err_eq (env : Env) (limit : Nat) (jid : String) (c : Ctx)
    (p : Movie × Int) (h : c.rs.dry_run = false) (e : String)
    (hdel : env.radarr.deleteMovie p.1.id = Except.error e) :
    movieStep env limit jid c p =
      Ctx.record limit jid
        { rs := { c.rs with
            errors := c.rs.errors ++ [radarrDeleteErr p.1.id p.1.title e] },
          store := c.store, tick := c.tick,
          calls := c.calls ++ [RemoteCall.deleteMovie p.1.id false] } := by
  unfold movieStep
  rw [h, hdel]
  simp [Ctx.record]

/-- Closed form of a successful `series`-mode deletion step. -/
theorem seriesStep_ok_eq (env : Env) (limit : Nat) (jid : String) (c : Ctx)
    (p : Series × Int) (h : c.rs.dry_run = false) (u : Unit)
    (hdel : env.sonarr.deleteSeries p.1.id = Except.ok u) :
    seriesStep env limit jid c p =
      Ctx.record limit jid
        { rs := { c.rs with
            deleted := c.rs.deleted ++
              [{ seriesModeEntry false p.1 p.2 with deleted_at := some (env.clock c.tick) }],
            deleted_count := countDeleted (c.rs.deleted ++
              [{ seriesModeEntry false p.1 p.2 with deleted_at := some (env.clock c.tick) }]) },
          store := c.store, tick := c.tick + 1,
          calls := c.calls ++ [RemoteCall.deleteSeries p.1.id true] } := by
  unfold seriesStep
  rw [h, hdel]
  simp [Ctx.record, Ctx.readClock]

/-- Closed form of a failed `series`-mode deletion step. -/
theorem seriesStep_err_eq (env : Env) (limit : Nat) (jid : String) (c : Ctx)
    (p : Series × Int) (h : c.rs.dry_run = false) (e : String)
    (hdel : env.sonarr.deleteSeries p.1.id = Except.error e) :
    seriesStep env limit jid c p =
      Ctx.record limit jid
        { rs := { c.rs with
            errors := c.rs.errors ++ [sonarrSeriesErr p.1.id p.1.title e] },
          store := c.store, tick := c.tick,
          calls := c.calls ++ [RemoteCall.deleteSeries p.1.id false] } := by
  unfold seriesStep
  rw [h, hdel]
  simp [Ctx.record]

/-- Closed form of a successful episode-file deletion step. -/
theorem episodeStep_ok_eq (env : Env) (limit : Nat) (jid : String) (c : Ctx)
    (cand : EpCand) (efid : Nat) (hid : cand.ef.id = some efid)
    (h : c.rs.dry_run = false) (u : Unit)
    (hdel : env.sonarr.deleteEpisodeFile efid = Except.ok u) :
    episodeStep env limit jid c cand =
      Ctx.record limit jid
        { rs := { c.rs with
            deleted := c.rs.deleted ++
              [{ episodeEntry false cand efid with deleted_at := some (env.clock c.tick) }],
            deleted_count := countDeleted (c.rs.deleted ++
              [{ episodeEntry false cand efid with deleted_at := some (env.clock c.tick) }]) },
          store := c.store, tick := c.tick + 1,
          calls := c.calls ++ [RemoteCall.deleteEpisodeFile efid true] } := by
  unfold episodeStep
  rw [hid, h]
  simp [hdel, Ctx.record, Ctx.readClock]

/-- Closed form of a failed episode-file deletion step. -/
theorem episodeStep_err_eq (env : Env) (limit : Nat) (jid : String) (c : Ctx)
    (cand : EpCand) (efid : Nat) (hid : cand.ef.id = some efid)
    (h : c.rs.dry_run = false) (e : String)
    (hdel : env.sonarr.deleteEpisodeFile efid = Except.error e) :
    episodeStep env limit jid c cand =
      Ctx.record limit jid
        { rs := { c.rs with
            errors := c.rs.errors ++ [sonarrEpisodeErr efid cand.sid e] },
          store := c.store, tick := c.tick,
          calls := c.calls ++ [RemoteCall.deleteEpisodeFile efid false] } := by
  unfold episodeStep
  rw [hid, h]
  simp [hdel, Ctx.record]

/-- Closed form of a second-pass step whose fresh query fails. -/
theorem secondPassStep_qerr_eq (env : Env) (limit : Nat) (jid : String)
    (c : Ctx) (s : Series) (e : String)
    (hq : env.sonarr.episodeFilesSecond s.id = Except.error e) :
    secondPassStep env limit jid c s =
      Ctx.record limit jid
        { rs := { c.rs with
            errors := c.rs.errors ++ [sonarrCheckErr s.id s.title e] },
          store := c.store, tick := c.tick,
          calls := c.calls ++ [RemoteCall.getEpisodeFiles s.id false] } := by
  unfold secondPassStep
  rw [hq]

/-- Closed form of a second-pass step that finds remaining episode files:
only the query call is added, nothing else changes. -/
theorem secondPassStep_rem_eq (env : Env) (limit : Nat) (jid : String)
    (c : Ctx) (s : Series) (remaining : List EpisodeFile)
    (hq : env.sonarr.episodeFilesSecond s.id = Except.ok remaining)
    (hne : remaining ≠ []) :
    secondPassStep env limit jid c s =
      { c with calls := c.calls ++ [RemoteCall.getEpisodeFiles s.id true] } := by
  unfold secondPassStep
  rw [hq]
  simp [List.isEmpty_iff, hne]

/-- Closed form of a dry-run second-pass step that finds no remaining
files: only the would-remove entry is appended (plus the query call). -/
theorem secondPassStep_empty_dry_eq (env : Env) (limit : Nat) (jid : String)
    (c : Ctx) (s : Series)
    (hq : env.sonarr.episodeFilesSecond s.id = Except.ok [])
    (h : c.rs.dry_run = true) :
    secondPassStep env limit jid c s =
      { rs := { c.rs with deleted := c.rs.deleted ++ [secondPassEntry true s] },
        store := c.store, tick := c.tick,
        calls := c.calls ++ [RemoteCall.getEpisodeFiles s.id true] } := by
  unfold secondPassStep
  rw [hq]
  simp [h]

/-- Closed form of a non-dry second-pass step that removes the series. -/
theorem secondPassStep_empty_ok_eq (env : Env) (limit : Nat) (jid : String)
    (c : Ctx) (s : Series)
    (hq : env.sonarr.episodeFilesSecond s.id = Except.ok [])
    (h : c.rs.dry_run = false) (u : Unit)
    (hdel : env.sonarr.deleteSeries s.id = Except.ok u) :
    secondPassStep env limit jid c s =
      Ctx.record limit jid
        { rs := { c.rs with
            deleted := c.rs.deleted ++
              [{ secondPassEntry false s with deleted_at := some (env.clock c.tick) }],
            deleted_count := countDeleted (c.rs.deleted ++
              [{ secondPassEntry false s with deleted_at := some (env.clock c.tick) }]) },
          store := c.store, tick := c.tick + 1,
          calls := c.calls ++ [RemoteCall.getEpisodeFiles s.id true,
                               RemoteCall.deleteSeries s.id true] } := by
  unfold secondPassStep
  rw [hq, hdel]
  simp [h, Ctx.record, Ctx.readClock]

/-- Closed form of a non-dry second-pass step whose series removal fails. -/
theorem secondPassStep_empty_err_eq (env : Env) (limit : Nat) (jid : String)
    (c : Ctx) (s : Series)
    (hq : env.sonarr.episodeFilesSecond s.id = Except.ok [])
    (h : c.rs.dry_run = false) (e : String)
    (hdel : env.sonarr.deleteSeries s.id = Except.error e) :
    secondPassStep env limit jid c s =
      Ctx.record limit jid
        { rs := { c.rs with
            errors := c.rs.errors ++ [sonarrRemoveErr s.id s.title e] },
          store := c.store, tick := c.tick,
          calls := c.calls ++ [RemoteCall.getEpisodeFiles s.id true,
                               RemoteCall.deleteSeries s.id false] } := by
  unfold secondPassStep
  rw [hq, hdel]
  simp [h, Ctx.record]

/-- The movie loop on no candidates is the identity. -/
theorem runMovieDeletions_nil (env : Env) (limit : Nat) (jid : String)
    (c : Ctx) : runMovieDeletions env limit jid [] c = c := rfl

theorem runMovieDeletions_cons (env : Env) (limit : Nat) (jid : String)
    (c : Ctx) (p : Movie × Int) (rest : List (Movie × Int)) :
    runMovieDeletions env limit jid (p :: rest) c =
      runMovieDeletions env limit jid rest (movieStep env limit jid c p) := rfl

theorem runSeriesDeletions_nil (env : Env) (limit : Nat) (jid : String)
    (c : Ctx) : runSeriesDeletions env limit jid [] c = c := rfl

theorem runSeriesDeletions_cons (env : Env) (limit : Nat) (jid : String)
    (c : Ctx) (p : Series × Int) (rest : List (Series × Int)) :
    runSeriesDeletions env limit jid (p :: rest) c =
      runSeriesDeletions env limit jid rest (seriesStep env limit jid c p) := rfl

theorem runEpisodeDeletions_nil (env : Env) (limit : Nat) (jid : String)
    (c : Ctx) : runEpisodeDeletions env limit jid [] c = c := rfl

theorem runEpisodeDeletions_cons (env : Env) (limit : Nat) (jid : String)
    (c : Ctx) (cand : EpCand) (rest : List EpCand) :
    runEpisodeDeletions env limit jid (cand :: rest) c =
      runEpisodeDeletions env limit jid rest (episodeStep env limit jid c cand) := rfl

theorem runSecondPass_nil (env : Env) (limit : Nat) (jid : String)
    (c : Ctx) : runSecondPass env limit jid [] c = c := rfl

theorem runSecondPass_cons (env : Env) (limit : Nat) (jid : String)
    (c : Ctx) (s : Series) (rest : List Series) :
    runSecondPass env limit jid (s :: rest) c =
      runSecondPass env limit jid rest (secondPassStep env limit jid c s) := rfl

/-- In dry-run, the movie loop appends one would-delete entry per
candidate, in order, and changes nothing else. -/
theorem runMovieDeletions_dry (env : Env) (limit : Nat) (jid : String) :
    ∀ (cands : List (Movie × Int)) (c : Ctx), c.rs.dry_run = true →
      runMovieDeletions env limit jid cands c =
        { c with rs := { c.rs with deleted :=
            c.rs.deleted ++ cands.map (fun p => movieEntry true p.1 p.2) } } := by
  intro cands
  induction cands with
  | nil => intro c h; simp [runMovieDeletions_nil]
  | cons p rest ih =>
    intro c h
    rw [runMovieDeletions_cons, movieStep_dry env limit jid c p h,
      ih _ (by simpa using h)]
    simp

/-- In dry-run, the `series`-mode loop appends one would-delete entry per
candidate, in order, and changes nothing else. -/
theorem runSeriesDeletions_dry (env : Env) (limit : Nat) (jid : String) :
    ∀ (cands : List (Series × Int)) (c : Ctx), c.rs.dry_run = true →
      runSeriesDeletions env limit jid cands c =
        { c with rs := { c.rs with deleted :=
            c.rs.deleted ++ cands.map (fun p => seriesModeEntry true p.1 p.2) } } := by
  intro cands
  induction cands with
  | nil => intro c h; simp [runSeriesDeletions_nil]
  | cons p rest ih =>
    intro c h
    rw [runSeriesDeletions_cons, seriesStep_dry env limit jid c p h,
      ih _ (by simpa using h)]
    simp

/-- In dry-run, the episode-file loop appends one would-delete entry per
candidate that carries a remote id (id-less candidates are skipped), and
changes nothing else. -/
theorem runEpisodeDeletions_dry (env : Env) (limit : Nat) (jid : String) :
    ∀ (cands : List EpCand) (c : Ctx), c.rs.dry_run = true →
      runEpisodeDeletions env limit jid cands c =
        { c with rs := { c.rs with deleted := c.rs.deleted ++ epDryEntries cands } } := by
  intro cands
  induction cands with
  | nil => intro c h; simp [runEpisodeDeletions_nil, epDryEntries]
  | cons cand rest ih =>
    intro c h
    rcases hid : cand.ef.id with _ | efid
    · rw [runEpisodeDeletions_cons, episodeStep_skip env limit jid c cand hid,
        ih _ h]
      simp [epDryEntries, List.filterMap_cons, hid]
    · rw [runEpisodeDeletions_cons, episodeStep_dry env limit jid c cand efid hid h,
        ih _ (by simpa using h)]
      simp [epDryEntries, List.filterMap_cons, hid]

/-- Outside dry-run, the movie loop attempts exactly one deletion per
candidate, in order, regardless of the outcomes of earlier attempts. -/
theorem runMovieDeletions_calls (env : Env) (limit : Nat) (jid : String) :
    ∀ (cands : List (Movie × Int)) (c : Ctx), c.rs.dry_run = false →
      (runMovieDeletions env limit jid cands c).calls =
        c.calls ++ cands.map (fun p =>
          RemoteCall.deleteMovie p.1.id (exceptOk (env.radarr.deleteMovie p.1.id))) := by
  intro cands
  induction cands with
  | nil => intro c h; simp [runMovieDeletions_nil]
  | cons p rest ih =>
    intro c h
    rw [runMovieDeletions_cons,
      ih _ (by rw [movieStep_dry_run, h]), movieStep_calls env limit jid c p h]
    simp

/-- Outside dry-run, the `series`-mode loop attempts exactly one deletion
per candidate, in order. -/
theorem runSeriesDeletions_calls (env : Env) (limit : Nat) (jid : String) :
    ∀ (cands : List (Series × Int)) (c : Ctx), c.rs.dry_run = false →
      (runSeriesDeletions env limit jid cands c).calls =
        c.calls ++ cands.map (fun p =>
          RemoteCall.deleteSeries p.1.id (exceptOk (env.sonarr.deleteSeries p.1.id))) := by
  intro cands
  induction cands with
  | nil => intro c h; simp [runSeriesDeletions_nil]
  | cons p rest ih =>
    intro c h
    rw [runSeriesDeletions_cons,
      ih _ (by rw [seriesStep_dry_run, h]), seriesStep_calls env limit jid c p h]
    simp

/-- Outside dry-run, the episode loop attempts exactly one deletion per
candidate with a present id, in order. -/
theorem runEpisodeDeletions_calls (env : Env) (limit : Nat) (jid : String) :
    ∀ (cands : List EpCand) (c : Ctx), c.rs.dry_run = false →
      (runEpisodeDeletions env limit jid cands c).calls =
        c.calls ++ epDeleteCalls env cands := by
  intro cands
  induction cands with
  | nil => intro c h; simp [runEpisodeDeletions_nil, epDeleteCalls]
  | cons cand rest ih =>
    intro c h
    rcases hid : cand.ef.id with _ | efid
    · rw [runEpisodeDeletions_cons, episodeStep_skip env limit jid c cand hid,
        ih _ h]
      simp [epDeleteCalls, List.filterMap_cons, hid]
    · rw [runEpisodeDeletions_cons,
        ih _ (by rw [episodeStep_dry_run, h]),
        episodeStep_calls env limit jid c cand efid hid h]
      simp [epDeleteCalls, List.filterMap_cons, hid]

/-- The second pass emits exactly one wire footprint per tagged series, in
order. -/
theorem runSecondPass_calls (env : Env) (limit : Nat) (jid : String) :
    ∀ (tagged : List Series) (c : Ctx),
      (runSecondPass env limit jid tagged c).calls =
        c.calls ++ tagged.flatMap (secondPassCalls env c.rs.dry_run) := by
  intro tagged
  induction tagged with
  | nil => simp [runSecondPass_nil]
  | cons s rest ih =>
    intro c
    rw [runSecondPass_cons, ih, secondPassStep_calls, secondPassStep_dry_run]
    simp

/-- In dry-run, the second pass appends one would-remove entry per tagged
series whose fresh query reported no remaining files. -/
theorem runSecondPass_dry_deleted (env : Env) (limit : Nat) (jid : String) :
    ∀ (tagged : List Series) (c : Ctx), c.rs.dry_run = true →
      (runSecondPass env limit jid tagged c).rs.deleted =
        c.rs.deleted ++ secondPassDryEntries env tagged := by
  intro tagged
  induction tagged with
  | nil => intro c h; simp [runSecondPass_nil, secondPassDryEntries]
  | cons s rest ih =>
    intro c h
    rw [runSecondPass_cons, ih _ (by rw [secondPassStep_dry_run, h]),
      secondPassStep_dry_deleted env limit jid c s h]
    by_cases hq : env.sonarr.episodeFilesSecond s.id = Except.ok []
    · simp [secondPassDryEntries, List.filterMap_cons, hq]
    · simp [secondPassDryEntries, List.filterMap_cons, hq]

theorem Ctx.record_rs (limit : Nat) (jid : String) (c : Ctx) :
    (Ctx.record limit jid c).rs = c.rs := rfl

theorem Ctx.record_calls (limit : Nat) (jid : String) (c : Ctx) :
    (Ctx.record limit jid c).calls = c.calls := rfl

theorem Ctx.record_store (limit : Nat) (jid : String) (c : Ctx) :
    (Ctx.record limit jid c).store = record_run limit c.store jid c.rs := rfl

/-- Recording a run state that satisfies the bookkeeping invariant keeps
the history invariant. -/
theorem histOK_record (store0 st : StoreState) (limit : Nat) (jid : String)
    (rs : RunState) (h : histOK store0 st) (hrs : rsCountOK rs) :
    histOK store0 (record_run limit st jid rs) := by
  intro rs' hmem
  unfold record_run at hmem
  simp only at hmem
  have := List.take_subset limit (rs :: st.run_history) hmem
  rcases List.mem_cons.mp this with rfl | hm
  · exact Or.inr hrs
  · exact h rs' hm

/-- Extension principle for `InvA`: a context transformed by appending
entries/calls (and optionally recording) keeps the invariant. -/
theorem InvA_ext (store0 : StoreState) (d : Bool) (limit : Nat) (jid : String)
    (c c' : Ctx) (ds : List DeletedEntry) (cs : List RemoteCall)
    (h : InvA store0 d c)
    (hdry : c'.rs.dry_run = c.rs.dry_run)
    (hdel : c'.rs.deleted = c.rs.deleted ++ ds)
    (hcnt : rsCountOK c'.rs)
    (hstore : c'.store = c.store ∨ c'.store = record_run limit c.store jid c'.rs)
    (hcalls : c'.calls = c.calls ++ cs)
    (hds : ∀ e ∈ ds, e.deleted_at.isSome = true ∨ e.dry_run = true)
    (hdryDs : d = true → ∀ e ∈ ds, e.deleted_at = none)
    (hdryCs : d = true → cs.countP (fun x => x.isMutating) = 0) :
    InvA store0 d c' := by
  obtain ⟨h1, _, h3, h4, h5⟩ := h
  refine ⟨hdry.trans h1, hcnt, ?_, ?_, ?_⟩
  · rcases hstore with hs | hs
    · rw [hs]; exact h3
    · rw [hs]; exact histOK_record store0 c.store limit jid c'.rs h3 hcnt
  · intro e he
    rw [hdel] at he
    rcases List.mem_append.mp he with he | he
    · exact h4 e he
    · exact hds e he
  · intro hdt
    obtain ⟨ha, hb⟩ := h5 hdt
    constructor
    · intro e he
      rw [hdel] at he
      rcases List.mem_append.mp he with he | he
      · exact ha e he
      · exact hdryDs hdt e he
    · rw [hcalls, List.countP_append, hb, hdryCs hdt]

/-- Extension principle for the errors-vs-calls balance. -/
theorem EMC_ext (c c' : Ctx) (es : List String) (cs : List RemoteCall)
    (h : EMC c)
    (herr : c'.rs.errors = c.rs.errors ++ es)
    (hcalls : c'.calls = c.calls ++ cs)
    (hbal : es.length = cs.countP (fun x => x.isFailedDelete) +
      cs.countP (fun x => x.isFailedQuery)) : EMC c' := by
  unfold EMC at h ⊢
  rw [herr, hcalls, List.length_append, List.countP_append, List.countP_append, h, hbal]
  omega

/-- A movie step preserves the run invariants. -/
theorem movieStep_pres (env : Env) (limit : Nat) (jid : String)
    (store0 : StoreState) (d : Bool) (c : Ctx) (p : Movie × Int)
    (h : InvA store0 d c ∧ EMC c) :
    InvA store0 d (movieStep env limit jid c p) ∧
      EMC (movieStep env limit jid c p) := by
  obtain ⟨ha, hb⟩ := h
  by_cases hd : c.rs.dry_run = true
  · rw [movieStep_dry env limit jid c p hd]
    constructor
    · refine InvA_ext store0 d limit jid c _ [movieEntry true p.1 p.2] [] ha
        rfl rfl ?_ (Or.inl rfl) (by simp) ?_ ?_ ?_
      · show c.rs.deleted_count = countDeleted (c.rs.deleted ++ [movieEntry true p.1 p.2])
        rw [countDeleted_append_none _ _ rfl]
        exact ha.2.1
      · intro e he
        simp only [List.mem_singleton] at he
        subst he
        exact Or.inr rfl
      · intro _ e he
        simp only [List.mem_singleton] at he
        subst he
        rfl
      · intro _; rfl
    · exact EMC_ext c _ [] [] hb (by simp) (by simp) rfl
  · rw [Bool.not_eq_true] at hd
    have hdf : d = false := by rw [← ha.1, hd]
    rcases hdel : env.radarr.deleteMovie p.1.id with e | u
    · rw [movieStep_err_eq env limit jid c p hd e hdel]
      constructor
      · exact InvA_ext store0 d limit jid c _ []
          [RemoteCall.deleteMovie p.1.id false] ha
          rfl (by simp [Ctx.record_rs]) ha.2.1 (Or.inr rfl) rfl (by simp)
          (by simp [hdf]) (by simp [hdf])
      · exact EMC_ext c _ [radarrDeleteErr p.1.id p.1.title e]
          [RemoteCall.deleteMovie p.1.id false] hb rfl rfl
          (by simp [RemoteCall.isFailedDelete, RemoteCall.isFailedQuery])
    · rw [movieStep_ok_eq env limit jid c p hd u hdel]
      constructor
      · refine InvA_ext store0 d limit jid c _
          [{ movieEntry false p.1 p.2 with deleted_at := some (env.clock c.tick) }]
          [RemoteCall.deleteMovie p.1.id true] ha
          rfl rfl rfl (Or.inr rfl) rfl ?_ (by simp [hdf]) (by simp [hdf])
        intro e he
        simp only [List.mem_singleton] at he
        subst he
        exact Or.inl rfl
      · exact EMC_ext c _ [] [RemoteCall.deleteMovie p.1.id true] hb
          (by simp [Ctx.record_rs]) rfl
          (by simp [RemoteCall.isFailedDelete, RemoteCall.isFailedQuery])

/-- A `series`-mode step preserves the run invariants. -/
theorem seriesStep_pres (env : Env) (limit : Nat) (jid : String)
    (store0 : StoreState) (d : Bool) (c : Ctx) (p : Series × Int)
    (h : InvA store0 d c ∧ EMC c) :
    InvA store0 d (seriesStep env limit jid c p) ∧
      EMC (seriesStep env limit jid c p) := by
  obtain ⟨ha, hb⟩ := h
  by_cases hd : c.rs.dry_run = true
  · rw [seriesStep_dry env limit jid c p hd]
    constructor
    · refine InvA_ext store0 d limit jid c _ [seriesModeEntry true p.1 p.2] [] ha
        rfl rfl ?_ (Or.inl rfl) (by simp) ?_ ?_ ?_
      · show c.rs.deleted_count = countDeleted (c.rs.deleted ++ [seriesModeEntry true p.1 p.2])
        rw [countDeleted_append_none _ _ rfl]
        exact ha.2.1
      · intro e he
        simp only [List.mem_singleton] at he
        subst he
        exact Or.inr rfl
      · intro _ e he
        simp only [List.mem_singleton] at he
        subst he
        rfl
      · intro _; rfl
    · exact EMC_ext c _ [] [] hb (by simp) (by simp) rfl
  · rw [Bool.not_eq_true] at hd
    have hdf : d = false := by rw [← ha.1, hd]
    rcases hdel : env.sonarr.deleteSeries p.1.id with e | u
    · rw [seriesStep_err_eq env limit jid c p hd e hdel]
      constructor
      · exact InvA_ext store0 d limit jid c _ []
          [RemoteCall.deleteSeries p.1.id false] ha
          rfl (by simp [Ctx.record_rs]) ha.2.1 (Or.inr rfl) rfl (by simp)
          (by simp [hdf]) (by simp [hdf])
      · exact EMC_ext c _ [sonarrSeriesErr p.1.id p.1.title e]
          [RemoteCall.deleteSeries p.1.id false] hb rfl rfl
          (by simp [RemoteCall.isFailedDelete, RemoteCall.isFailedQuery])
    · rw [seriesStep_ok_eq env limit jid c p hd u hdel]
      constructor
      · refine InvA_ext store0 d limit jid c _
          [{ seriesModeEntry false p.1 p.2 with deleted_at := some (env.clock c.tick) }]
          [RemoteCall.deleteSeries p.1.id true] ha
          rfl rfl rfl (Or.inr rfl) rfl ?_ (by simp [hdf]) (by simp [hdf])
        intro e he
        simp only [List.mem_singleton] at he
        subst he
        exact Or.inl rfl
      · exact EMC_ext c _ [] [RemoteCall.deleteSeries p.1.id true] hb
          (by simp [Ctx.record_rs]) rfl
          (by simp [RemoteCall.isFailedDelete, RemoteCall.isFailedQuery])

/-- An episode step preserves the run invariants. -/
theorem episodeStep_pres (env : Env) (limit : Nat) (jid : String)
    (store0 : StoreState) (d : Bool) (c : Ctx) (cand : EpCand)
    (h : InvA store0 d c ∧ EMC c) :
    InvA store0 d (episodeStep env limit jid c cand) ∧
      EMC (episodeStep env limit jid c cand) := by
  obtain ⟨ha, hb⟩ := h
  rcases hid : cand.ef.id with _ | efid
  · rw [episodeStep_skip env limit jid c cand hid]
    exact ⟨ha, hb⟩
  by_cases hd : c.rs.dry_run = true
  · rw [episodeStep_dry env limit jid c cand efid hid hd]
    constructor
    · refine InvA_ext store0 d limit jid c _ [episodeEntry true cand efid] [] ha
        rfl rfl ?_ (Or.inl rfl) (by simp) ?_ ?_ ?_
      · show c.rs.deleted_count = countDeleted (c.rs.deleted ++ [episodeEntry true cand efid])
        rw [countDeleted_append_none _ _ rfl]
        exact ha.2.1
      · intro e he
        simp only [List.mem_singleton] at he
        subst he
        exact Or.inr rfl
      · intro _ e he
        simp only [List.mem_singleton] at he
        subst he
        rfl
      · intro _; rfl
    · exact EMC_ext c _ [] [] hb (by simp) (by simp) rfl
  · rw [Bool.not_eq_true] at hd
    have hdf : d = false := by rw [← ha.1, hd]
    rcases hdel : env.sonarr.deleteEpisodeFile efid with e | u
    · rw [episodeStep_err_eq env limit jid c cand efid hid hd e hdel]
      constructor
      · exact InvA_ext store0 d limit jid c _ []
          [RemoteCall.deleteEpisodeFile efid false] ha
          rfl (by simp [Ctx.record_rs]) ha.2.1 (Or.inr rfl) rfl (by simp)
          (by simp [hdf]) (by simp [hdf])
      · exact EMC_ext c _ [sonarrEpisodeErr efid cand.sid e]
          [RemoteCall.deleteEpisodeFile efid false] hb rfl rfl
          (by simp [RemoteCall.isFailedDelete, RemoteCall.isFailedQuery])
    · rw [episodeStep_ok_eq env limit jid c cand efid hid hd u hdel]
      constructor
      · refine InvA_ext store0 d limit jid c _
          [{ episodeEntry false cand efid with deleted_at := some (env.clock c.tick) }]
          [RemoteCall.deleteEpisodeFile efid true] ha
          rfl rfl rfl (Or.inr rfl) rfl ?_ (by simp [hdf]) (by simp [hdf])
        intro e he
        simp only [List.mem_singleton] at he
        subst he
        exact Or.inl rfl
      · exact EMC_ext c _ [] [RemoteCall.deleteEpisodeFile efid true] hb
          (by simp [Ctx.record_rs]) rfl
          (by simp [RemoteCall.isFailedDelete, RemoteCall.isFailedQuery])

/-- A second-pass step preserves the run invariants. -/
theorem secondPassStep_pres (env : Env) (limit : Nat) (jid : String)
    (store0 : StoreState) (d : Bool) (c : Ctx) (s : Series)
    (h : InvA store0 d c ∧ EMC c) :
    InvA store0 d (secondPassStep env limit jid c s) ∧
      EMC (secondPassStep env limit jid c s) := by
  obtain ⟨ha, hb⟩ := h
  rcases hq : env.sonarr.episodeFilesSecond s.id with e | remaining
  · rw [secondPassStep_qerr_eq env limit jid c s e hq]
    constructor
    · exact InvA_ext store0 d limit jid c _ []
        [RemoteCall.getEpisodeFiles s.id false] ha
        rfl (by simp [Ctx.record_rs]) ha.2.1 (Or.inr rfl) rfl (by simp)
        (by simp) (by simp [RemoteCall.isMutating])
    · exact EMC_ext c _ [sonarrCheckErr s.id s.title e]
        [RemoteCall.getEpisodeFiles s.id false] hb rfl rfl
        (by simp [RemoteCall.isFailedDelete, RemoteCall.isFailedQuery])
  rcases hrem : remaining with _ | ⟨ef, efs⟩
  · by_cases hd : c.rs.dry_run = true
    · rw [secondPassStep_empty_dry_eq env limit jid c s (hrem ▸ hq) hd]
      constructor
      · refine InvA_ext store0 d limit jid c _ [secondPassEntry true s]
          [RemoteCall.getEpisodeFiles s.id true] ha
          rfl rfl ?_ (Or.inl rfl) rfl ?_ ?_ (by simp [RemoteCall.isMutating])
        · show c.rs.deleted_count = countDeleted (c.rs.deleted ++ [secondPassEntry true s])
          rw [countDeleted_append_none _ _ rfl]
          exact ha.2.1
        · intro e he
          simp only [List.mem_singleton] at he
          subst he
          exact Or.inr rfl
        · intro _ e he
          simp only [List.mem_singleton] at he
          subst he
          rfl
      · exact EMC_ext c _ [] [RemoteCall.getEpisodeFiles s.id true] hb
          (by simp) rfl
          (by simp [RemoteCall.isFailedDelete, RemoteCall.isFailedQuery])
    · rw [Bool.not_eq_true] at hd
      have hdf : d = false := by rw [← ha.1, hd]
      rcases hdel : env.sonarr.deleteSeries s.id with e | u
      · rw [secondPassStep_empty_err_eq env limit jid c s (hrem ▸ hq) hd e hdel]
        constructor
        · exact InvA_ext store0 d limit jid c _ []
            [RemoteCall.getEpisodeFiles s.id true,
             RemoteCall.deleteSeries s.id false] ha
            rfl (by simp [Ctx.record_rs]) ha.2.1 (Or.inr rfl) rfl (by simp)
            (by simp [hdf]) (by simp [hdf])
        · exact EMC_ext c _ [sonarrRemoveErr s.id s.title e]
            [RemoteCall.getEpisodeFiles s.id true,
             RemoteCall.deleteSeries s.id false] hb rfl rfl
            (by simp [RemoteCall.isFailedDelete, RemoteCall.isFailedQuery])
      · rw [secondPassStep_empty_ok_eq env limit jid c s (hrem ▸ hq) hd u hdel]
        constructor
        · refine InvA_ext store0 d limit jid c _
            [{ secondPassEntry false s with deleted_at := some (env.clock c.tick) }]
            [RemoteCall.getEpisodeFiles s.id true,
             RemoteCall.deleteSeries s.id true] ha
            rfl rfl rfl (Or.inr rfl) rfl ?_ (by simp [hdf]) (by simp [hdf])
          intro e he
          simp only [List.mem_singleton] at he
          subst he
          exact Or.inl rfl
        · exact EMC_ext c _ []
            [RemoteCall.getEpisodeFiles s.id true,
             RemoteCall.deleteSeries s.id true] hb
            (by simp [Ctx.record_rs]) rfl
            (by simp [RemoteCall.isFailedDelete, RemoteCall.isFailedQuery])
  · rw [secondPassStep_rem_eq env limit jid c s remaining (hrem ▸ hq) (by simp [hrem])]
    constructor
    · exact InvA_ext store0 d limit jid c _ []
        [RemoteCall.getEpisodeFiles s.id true] ha
        rfl (by simp) ha.2.1 (Or.inl rfl) rfl (by simp) (by simp)
        (by simp [RemoteCall.isMutating])
    · exact EMC_ext c _ [] [RemoteCall.getEpisodeFiles s.id true] hb (by simp) rfl
        (by simp [RemoteCall.isFailedDelete, RemoteCall.isFailedQuery])

theorem run_job_finalState (env : Env) (limit : Nat) (job : Job)
    (store0 : StoreState) :
    (run_job env limit job store0).finalState =
      runFinalRS env (runBody env limit job (runCtx0 env limit job store0)) := rfl

theorem run_job_calls (env : Env) (limit : Nat) (job : Job)
    (store0 : StoreState) :
    (run_job env limit job store0).calls =
      (runBody env limit job (runCtx0 env limit job store0)).1.calls := rfl

theorem run_job_store (env : Env) (limit : Nat) (job : Job)
    (store0 : StoreState) :
    (run_job env limit job store0).store =
      record_run limit (runBody env limit job (runCtx0 env limit job store0)).1.store
        job.id
        (runFinalRS env (runBody env limit job (runCtx0 env limit job store0))) := rfl

theorem run_job_result (env : Env) (limit : Nat) (job : Job)
    (store0 : StoreState) :
    (run_job env limit job store0).result =
      (match (runBody env limit job (runCtx0 env limit job store0)).2 with
       | Except.ok _ =>
         Except.ok (runFinalRS env (runBody env limit job (runCtx0 env limit job store0)))
       | Except.error e => Except.error e) := rfl

/-- Candidate discovery only makes episode-file listing calls. -/
theorem fetch_calls_getOnly (env : Env) (cutoff now : Time) :
    ∀ (ss : List Series) (x : RemoteCall),
      x ∈ (fetchEpisodeCandidates env cutoff now ss).1 →
      ∃ i b, x = RemoteCall.getEpisodeFiles i b := by
  intro ss
  induction ss with
  | nil => intro x hx; simp [fetchEpisodeCandidates] at hx
  | cons s rest ih =>
    intro x hx
    rcases hq : env.sonarr.episodeFilesFirst s.id with e | efiles <;>
      simp only [fetchEpisodeCandidates, hq, List.mem_cons, List.mem_singleton] at hx
    · rcases hx with rfl | hx
      · exact ⟨s.id, false, rfl⟩
      · simp at hx
    · rcases hx with rfl | hx
      · exact ⟨s.id, true, rfl⟩
      · exact ih x hx

/-- When candidate discovery succeeds, every listing call it made
succeeded. -/
theorem fetch_calls_ok (env : Env) (cutoff now : Time) :
    ∀ (ss : List Series),
      exceptOk (fetchEpisodeCandidates env cutoff now ss).2 = true →
      ∀ x ∈ (fetchEpisodeCandidates env cutoff now ss).1,
        ∃ i, x = RemoteCall.getEpisodeFiles i true := by
  intro ss
  induction ss with
  | nil => intro _ x hx; simp [fetchEpisodeCandidates] at hx
  | cons s rest ih =>
    intro hok x hx
    rcases hq : env.sonarr.episodeFilesFirst s.id with e | efiles <;>
      simp only [fetchEpisodeCandidates, hq, List.mem_cons, List.mem_singleton] at hok hx
    · simp [exceptOk] at hok
    · rcases hx with rfl | hx
      · exact ⟨s.id, rfl⟩
      · refine ih ?_ x hx
        rcases hr : (fetchEpisodeCandidates env cutoff now rest).2 with e | l
        · rw [hr] at hok; simp [Except.map, exceptOk] at hok
        · simp [exceptOk]

/-- Discovery calls are never mutating. -/
theorem fetch_calls_countMut (env : Env) (cutoff now : Time) (ss : List Series) :
    ((fetchEpisodeCandidates env cutoff now ss).1).countP
      (fun x => x.isMutating) = 0 := by
  rw [List.countP_eq_zero]
  intro x hx
  obtain ⟨i, b, rfl⟩ := fetch_calls_getOnly env cutoff now ss x hx
  simp [RemoteCall.isMutating]

/-- Discovery calls are never failed deletes. -/
theorem fetch_calls_countFD (env : Env) (cutoff now : Time) (ss : List Series) :
    ((fetchEpisodeCandidates env cutoff now ss).1).countP
      (fun x => x.isFailedDelete) = 0 := by
  rw [List.countP_eq_zero]
  intro x hx
  obtain ⟨i, b, rfl⟩ := fetch_calls_getOnly env cutoff now ss x hx
  simp [RemoteCall.isFailedDelete]

/-- When discovery succeeds, none of its calls is a failed query. -/
theorem fetch_calls_countFQ (env : Env) (cutoff now : Time) (ss : List Series)
    (hok : exceptOk (fetchEpisodeCandidates env cutoff now ss).2 = true) :
    ((fetchEpisodeCandidates env cutoff now ss).1).countP
      (fun x => x.isFailedQuery) = 0 := by
  rw [List.countP_eq_zero]
  intro x hx
  obtain ⟨i, rfl⟩ := fetch_calls_ok env cutoff now ss hok x hx
  simp [RemoteCall.isFailedQuery]

/-- The Radarr branch preserves the run invariants, and the errors-vs-calls
balance on its non-raising paths. -/
theorem runRadarr_pres (env : Env) (limit : Nat) (job : Job) (cutoff : Time)
    (store0 : StoreState) (d : Bool) (c : Ctx)
    (h : InvA store0 d c ∧ EMC c) :
    InvA store0 d (runRadarr env limit job cutoff c).1 ∧
    (exceptOk (runRadarr env limit job cutoff c).2 = true →
      EMC (runRadarr env limit job cutoff c).1) := by
  unfold runRadarr
  by_cases hu : env.cfg.radarr_url = ""
  · rw [if_pos hu]
    exact ⟨h.1, fun hx => absurd hx (by simp [exceptOk])⟩
  rw [if_neg hu]
  by_cases hk : env.cfg.radarr_api_key = ""
  · rw [if_pos hk]
    exact ⟨h.1, fun hx => absurd hx (by simp [exceptOk])⟩
  rw [if_neg hk]
  split
  · rename_i hf
    refine ⟨?_, fun hx => absurd hx (by simp [exceptOk])⟩
    exact InvA_ext store0 d limit job.id c _ [] [RemoteCall.getTags] h.1
      rfl (by simp) h.1.2.1 (Or.inl rfl) rfl (by simp) (by simp)
      (by simp [RemoteCall.isMutating])
  · rename_i tag hf
    split
    · rename_i e hs
      refine ⟨?_, fun hx => absurd hx (by simp [exceptOk])⟩
      exact InvA_ext store0 d limit job.id c _ []
        [RemoteCall.getTags, RemoteCall.getMovies] h.1
        rfl (by simp) h.1.2.1 (Or.inl rfl) rfl (by simp) (by simp)
        (by simp [RemoteCall.isMutating])
    · rename_i cands hs
      have h3 : InvA store0 d
          (Ctx.record limit job.id
            { rs := { c.rs with candidates_found :=
                (sortDescBy (fun p => p.2) cands).length },
              store := c.store, tick := c.tick + 1,
              calls := c.calls ++ [RemoteCall.getTags, RemoteCall.getMovies] }) ∧
          EMC (Ctx.record limit job.id
            { rs := { c.rs with candidates_found :=
                (sortDescBy (fun p => p.2) cands).length },
              store := c.store, tick := c.tick + 1,
              calls := c.calls ++ [RemoteCall.getTags, RemoteCall.getMovies] }) := by
        constructor
        · exact InvA_ext store0 d limit job.id c _ []
            [RemoteCall.getTags, RemoteCall.getMovies] h.1
            rfl (by simp [Ctx.record_rs]) h.1.2.1 (Or.inr rfl) rfl (by simp)
            (by simp) (by simp [RemoteCall.isMutating])
        · exact EMC_ext c _ [] [RemoteCall.getTags, RemoteCall.getMovies] h.2
            (by simp [Ctx.record_rs]) rfl
            (by simp [RemoteCall.isFailedDelete, RemoteCall.isFailedQuery])
      have hfold := foldl_preserve
        (f := movieStep env limit job.id)
        (P := fun cc => InvA store0 d cc ∧ EMC cc)
        (fun b a hb => movieStep_pres env limit job.id store0 d b a hb)
        (sortDescBy (fun p => p.2) cands) _ h3
      exact ⟨hfold.1, fun _ => hfold.2⟩

/-- The Sonarr branch preserves the run invariants, and the errors-vs-calls
balance on its non-raising paths. -/
theorem runSonarr_pres (env : Env) (limit : Nat) (job : Job) (cutoff : Time)
    (store0 : StoreState) (d : Bool) (c : Ctx)
    (h : InvA store0 d c ∧ EMC c) :
    InvA store0 d (runSonarr env limit job cutoff c).1 ∧
    (exceptOk (runSonarr env limit job cutoff c).2 = true →
      EMC (runSonarr env limit job cutoff c).1) := by
  unfold runSonarr
  by_cases hu : env.cfg.sonarr_url = ""
  · rw [if_pos hu]
    exact ⟨h.1, fun hx => absurd hx (by simp [exceptOk])⟩
  rw [if_neg hu]
  by_cases hk : env.cfg.sonarr_api_key = ""
  · rw [if_pos hk]
    exact ⟨h.1, fun hx => absurd hx (by simp [exceptOk])⟩
  rw [if_neg hk]
  by_cases ht : sonarrTagId env job = 0
  · rw [if_pos ht]
    refine ⟨?_, fun hx => absurd hx (by simp [exceptOk])⟩
    exact InvA_ext store0 d limit job.id c _ [] [RemoteCall.getTags] h.1
      rfl (by simp) h.1.2.1 (Or.inl rfl) rfl (by simp) (by simp)
      (by simp [RemoteCall.isMutating])
  rw [if_neg ht]
  by_cases hm : job.sonarr_delete_mode = "series"
  · rw [if_pos hm]
    have h3 : InvA store0 d
        (Ctx.record limit job.id
          { rs := { c.rs with candidates_found :=
              (sortDescBy (fun p => p.2)
                (selectSeriesCandidates env.fromiso cutoff (env.clock c.tick)
                  (sonarrTagged env job))).length },
            store := c.store, tick := c.tick + 1,
            calls := c.calls ++ [RemoteCall.getTags, RemoteCall.getSeries] }) ∧
        EMC (Ctx.record limit job.id
          { rs := { c.rs with candidates_found :=
              (sortDescBy (fun p => p.2)
                (selectSeriesCandidates env.fromiso cutoff (env.clock c.tick)
                  (sonarrTagged env job))).length },
            store := c.store, tick := c.tick + 1,
            calls := c.calls ++ [RemoteCall.getTags, RemoteCall.getSeries] }) := by
      constructor
      · exact InvA_ext store0 d limit job.id c _ []
          [RemoteCall.getTags, RemoteCall.getSeries] h.1
          rfl (by simp [Ctx.record_rs]) h.1.2.1 (Or.inr rfl) rfl (by simp)
          (by simp) (by simp [RemoteCall.isMutating])
      · exact EMC_ext c _ [] [RemoteCall.getTags, RemoteCall.getSeries] h.2
          (by simp [Ctx.record_rs]) rfl
          (by simp [RemoteCall.isFailedDelete, RemoteCall.isFailedQuery])
    have hfold := foldl_preserve
      (f := seriesStep env limit job.id)
      (P := fun cc => InvA store0 d cc ∧ EMC cc)
      (fun b a hb => seriesStep_pres env limit job.id store0 d b a hb)
      (sortDescBy (fun p => p.2)
        (selectSeriesCandidates env.fromiso cutoff (env.clock c.tick)
          (sonarrTagged env job))) _ h3
    exact ⟨hfold.1, fun _ => hfold.2⟩
  rw [if_neg hm]
  split
  · rename_i e hs
    refine ⟨?_, fun hx => absurd hx (by simp [exceptOk])⟩
    refine InvA_ext store0 d limit job.id c _ []
      ([RemoteCall.getTags, RemoteCall.getSeries] ++
        (fetchEpisodeCandidates env cutoff (env.clock c.tick)
          (sonarrTagged env job)).1) h.1
      rfl (by simp) h.1.2.1 (Or.inl rfl) (by simp) (by simp) (by simp) ?_
    intro _
    rw [List.countP_append, fetch_calls_countMut]
    simp [RemoteCall.isMutating]
  · rename_i cands hs
    have hok : exceptOk (fetchEpisodeCandidates env cutoff (env.clock c.tick)
        (sonarrTagged env job)).2 = true := by simp [hs, exceptOk]
    have h3 : InvA store0 d
        (Ctx.record limit job.id
          { rs := { c.rs with candidates_found :=
              (sortDescBy (fun cand => cand.age) cands).length },
            store := c.store, tick := c.tick + 1,
            calls := c.calls ++ [RemoteCall.getTags, RemoteCall.getSeries] ++
              (fetchEpisodeCandidates env cutoff (env.clock c.tick)
                (sonarrTagged env job)).1 }) ∧
        EMC (Ctx.record limit job.id
          { rs := { c.rs with candidates_found :=
              (sortDescBy (fun cand => cand.age) cands).length },
            store := c.store, tick := c.tick + 1,
            calls := c.calls ++ [RemoteCall.getTags, RemoteCall.getSeries] ++
              (fetchEpisodeCandidates env cutoff (env.clock c.tick)
                (sonarrTagged env job)).1 }) := by
      constructor
      · refine InvA_ext store0 d limit job.id c _ []
          ([RemoteCall.getTags, RemoteCall.getSeries] ++
            (fetchEpisodeCandidates env cutoff (env.clock c.tick)
              (sonarrTagged env job)).1) h.1
          rfl (by simp [Ctx.record_rs]) h.1.2.1 (Or.inr rfl)
          (by simp [Ctx.record_calls]) (by simp) (by simp) ?_
        intro _
        rw [List.countP_append, fetch_calls_countMut]
        simp [RemoteCall.isMutating]
      · refine EMC_ext c _ []
          ([RemoteCall.getTags, RemoteCall.getSeries] ++
            (fetchEpisodeCandidates env cutoff (env.clock c.tick)
              (sonarrTagged env job)).1) h.2
          (by simp [Ctx.record_rs]) (by simp [Ctx.record_calls]) ?_
        rw [List.countP_append, List.countP_append,
          fetch_calls_countFD, fetch_calls_countFQ env cutoff _ _ hok]
        simp [RemoteCall.isFailedDelete, RemoteCall.isFailedQuery]
    have hfold := foldl_preserve
      (f := episodeStep env limit job.id)
      (P := fun cc => InvA store0 d cc ∧ EMC cc)
      (fun b a hb => episodeStep_pres env limit job.id store0 d b a hb)
      (sortDescBy (fun cand => cand.age) cands) _ h3
    by_cases hm2 : job.sonarr_delete_mode = "episodes_then_series"
    · rw [if_pos hm2]
      have hfold2 := foldl_preserve
        (f := secondPassStep env limit job.id)
        (P := fun cc => InvA store0 d cc ∧ EMC cc)
        (fun b a hb => secondPassStep_pres env limit job.id store0 d b a hb)
        (sonarrTagged env job) _ hfold
      exact ⟨hfold2.1, fun _ => hfold2.2⟩
    · rw [if_neg hm2]
      exact ⟨hfold.1, fun _ => hfold.2⟩

/-- The whole job body preserves the run invariants. -/
theorem runBody_pres (env : Env) (limit : Nat) (job : Job)
    (store0 : StoreState) (d : Bool) (c : Ctx)
    (h : InvA store0 d c ∧ EMC c) :
    InvA store0 d (runBody env limit job c).1 ∧
    (exceptOk (runBody env limit job c).2 = true →
      EMC (runBody env limit job c).1) := by
  unfold runBody
  have h1 : InvA store0 d { c with tick := c.tick + 1 } ∧
      EMC { c with tick := c.tick + 1 } := by
    constructor
    · exact InvA_ext store0 d 0 "" c _ [] [] h.1 rfl (by simp) h.1.2.1
        (Or.inl rfl) (by simp) (by simp) (by simp) (by simp)
    · exact EMC_ext c _ [] [] h.2 (by simp) (by simp) rfl
  by_cases ha : job.app = "radarr"
  · rw [if_pos ha]
    exact runRadarr_pres env limit job _ store0 d _ h1
  rw [if_neg ha]
  by_cases hb : job.app = "sonarr"
  · rw [if_pos hb]
    exact runSonarr_pres env limit job _ store0 d _ h1
  · rw [if_neg hb]
    exact ⟨h1.1, fun hx => absurd hx (by simp [exceptOk])⟩

/-- The run-level master invariant: bookkeeping, history, entry shape,
dry-run silence, and the errors-vs-calls balance of `run_job`. -/
theorem run_job_pres (env : Env) (limit : Nat) (job : Job)
    (store0 : StoreState) :
    rsCountOK (run_job env limit job store0).finalState ∧
    histOK store0 (run_job env limit job store0).store ∧
    entriesOK (run_job env limit job store0).finalState.deleted ∧
    (job.dry_run = true →
      (∀ e ∈ (run_job env limit job store0).finalState.deleted,
        e.deleted_at = none) ∧
      (run_job env limit job store0).calls.countP (fun x => x.isMutating) = 0) ∧
    (exceptOk (run_job env limit job store0).result = true →
      (run_job env limit job store0).finalState.errors.length =
        (run_job env limit job store0).calls.countP (fun x => x.isFailedDelete) +
        (run_job env limit job store0).calls.countP (fun x => x.isFailedQuery)) := by
  have h0 : InvA store0 job.dry_run (runCtx0 env limit job store0) ∧
      EMC (runCtx0 env limit job store0) := by
    refine ⟨⟨rfl, rfl, ?_, ?_, ?_⟩, ?_⟩
    · exact histOK_record store0 store0 limit job.id _
        (fun rs hrs => Or.inl hrs) rfl
    · intro e he; simp [runCtx0, initialRunState] at he
    · intro _
      exact ⟨fun e he => by simp [runCtx0, initialRunState] at he, rfl⟩
    · rfl
  have hb := runBody_pres env limit job store0 job.dry_run
    (runCtx0 env limit job store0) h0
  obtain ⟨⟨i1, i2, i3, i4, i5⟩, hemc⟩ := hb
  have hfs : rsCountOK (runFinalRS env
      (runBody env limit job (runCtx0 env limit job store0))) := by
    unfold runFinalRS rsCountOK at *
    rcases hbr : (runBody env limit job (runCtx0 env limit job store0)).2 with e | u <;>
      simp [hbr] at * <;> exact i2
  have hdelsame : (runFinalRS env
      (runBody env limit job (runCtx0 env limit job store0))).deleted =
      (runBody env limit job (runCtx0 env limit job store0)).1.rs.deleted := by
    unfold runFinalRS
    rcases hbr : (runBody env limit job (runCtx0 env limit job store0)).2 with e | u <;>
      simp [hbr]
  refine ⟨?_, ?_, ?_, ?_, ?_⟩
  · rw [run_job_finalState]
    exact hfs
  · rw [run_job_store]
    exact histOK_record store0 _ limit job.id _ i3 hfs
  · rw [run_job_finalState, hdelsame]
    exact i4
  · intro hdt
    obtain ⟨ha, hbm⟩ := i5 hdt
    refine ⟨?_, ?_⟩
    · rw [run_job_finalState, hdelsame]
      exact ha
    · rw [run_job_calls]
      exact hbm
  · intro hok
    rw [run_job_result] at hok
    rcases hbr : (runBody env limit job (runCtx0 env limit job store0)).2 with e | u
    · rw [hbr] at hok; simp [exceptOk] at hok
    · have hemc2 := hemc (by simp [hbr, exceptOk])
      rw [run_job_finalState, run_job_calls]
      unfold runFinalRS
      rw [hbr]
      simpa using hemc2

theorem movieStep_core (env : Env) (limit : Nat) (jid : String) (c : Ctx)
    (p : Movie × Int) :
    rsCore (movieStep env limit jid c p).rs = rsCore c.rs := by
  unfold movieStep
  split <;> [skip; split] <;> simp [Ctx.record, Ctx.readClock, rsCore]

theorem seriesStep_core (env : Env) (limit : Nat) (jid : String) (c : Ctx)
    (p : Series × Int) :
    rsCore (seriesStep env limit jid c p).rs = rsCore c.rs := by
  unfold seriesStep
  split <;> [skip; split] <;> simp [Ctx.record, Ctx.readClock, rsCore]

theorem episodeStep_core (env : Env) (limit : Nat) (jid : String) (c : Ctx)
    (cand : EpCand) :
    rsCore (episodeStep env limit jid c cand).rs = rsCore c.rs := by
  unfold episodeStep
  split
  · rfl
  · split <;> [skip; split] <;> simp [Ctx.record, Ctx.readClock, rsCore]

theorem secondPassStep_core (env : Env) (limit : Nat) (jid : String) (c : Ctx)
    (s : Series) :
    rsCore (secondPassStep env limit jid c s).rs = rsCore c.rs := by
  unfold secondPassStep
  rcases hq : env.sonarr.episodeFilesSecond s.id with e | remaining
  · simp [Ctx.record, rsCore]
  · by_cases hr : remaining.isEmpty
    · by_cases hd : c.rs.dry_run = true
      · simp [hr, hd, rsCore]
      · rw [Bool.not_eq_true] at hd
        rcases hs : env.sonarr.deleteSeries s.id with e | u <;>
          simp [hr, hd, hs, Ctx.record, Ctx.readClock, rsCore]
    · simp [hr]

theorem runMovieDeletions_core (env : Env) (limit : Nat) (jid : String)
    (cands : List (Movie × Int)) (c : Ctx) :
    rsCore (runMovieDeletions env limit jid cands c).rs = rsCore c.rs :=
  foldl_preserve (P := fun cc => rsCore cc.rs = rsCore c.rs)
    (fun b a hb => (movieStep_core env limit jid b a).trans hb) cands c rfl

theorem runSeriesDeletions_core (env : Env) (limit : Nat) (jid : String)
    (cands : List (Series × Int)) (c : Ctx) :
    rsCore (runSeriesDeletions env limit jid cands c).rs = rsCore c.rs :=
  foldl_preserve (P := fun cc => rsCore cc.rs = rsCore c.rs)
    (fun b a hb => (seriesStep_core env limit jid b a).trans hb) cands c rfl

theorem runEpisodeDeletions_core (env : Env) (limit : Nat) (jid : String)
    (cands : List EpCand) (c : Ctx) :
    rsCore (runEpisodeDeletions env limit jid cands c).rs = rsCore c.rs :=
  foldl_preserve (P := fun cc => rsCore cc.rs = rsCore c.rs)
    (fun b a hb => (episodeStep_core env limit jid b a).trans hb) cands c rfl

theorem runSecondPass_core (env : Env) (limit : Nat) (jid : String)
    (tagged : List Series) (c : Ctx) :
    rsCore (runSecondPass env limit jid tagged c).rs = rsCore c.rs :=
  foldl_preserve (P := fun cc => rsCore cc.rs = rsCore c.rs)
    (fun b a hb => (secondPassStep_core env limit jid b a).trans hb) tagged c rfl

theorem runRadarr_core (env : Env) (limit : Nat) (job : Job) (cutoff : Time)
    (c : Ctx) :
    rsCore (runRadarr env limit job cutoff c).1.rs = rsCore c.rs := by
  unfold runRadarr
  by_cases hu : env.cfg.radarr_url = ""
  · rw [if_pos hu]
  rw [if_neg hu]
  by_cases hk : env.cfg.radarr_api_key = ""
  · rw [if_pos hk]
  rw [if_neg hk]
  split
  · rfl
  · split
    · rfl
    · exact runMovieDeletions_core env limit job.id _ _

theorem runSonarr_core (env : Env) (limit : Nat) (job : Job) (cutoff : Time)
    (c : Ctx) :
    rsCore (runSonarr env limit job cutoff c).1.rs = rsCore c.rs := by
  unfold runSonarr
  by_cases hu : env.cfg.sonarr_url = ""
  · rw [if_pos hu]
  rw [if_neg hu]
  by_cases hk : env.cfg.sonarr_api_key = ""
  · rw [if_pos hk]
  rw [if_neg hk]
  by_cases ht : sonarrTagId env job = 0
  · rw [if_pos ht]
  rw [if_neg ht]
  by_cases hm : job.sonarr_delete_mode = "series"
  · rw [if_pos hm]
    exact runSeriesDeletions_core env limit job.id _ _
  rw [if_neg hm]
  split
  · rfl
  · by_cases hm2 : job.sonarr_delete_mode = "episodes_then_series"
    · rw [if_pos hm2]
      exact (runSecondPass_core env limit job.id _ _).trans
        (runEpisodeDeletions_core env limit job.id _ _)
    · rw [if_neg hm2]
      exact runEpisodeDeletions_core env limit job.id _ _

theorem runBody_core (env : Env) (limit : Nat) (job : Job) (c : Ctx) :
    rsCore (runBody env limit job c).1.rs = rsCore c.rs := by
  unfold runBody
  by_cases ha : job.app = "radarr"
  · rw [if_pos ha]
    exact runRadarr_core env limit job _ _
  rw [if_neg ha]
  by_cases hb : job.app = "sonarr"
  · rw [if_pos hb]
    exact runSonarr_core env limit job _ _
  · rw [if_neg hb]

theorem runFinalRS_core (env : Env) (br : Ctx × Except String Unit) :
    rsCore (runFinalRS env br) = rsCore br.1.rs := by
  unfold runFinalRS
  rcases hbr : br.2 with e | u <;> simp [rsCore]

/-- The stable fields of the final run state are exactly those of the
initial run state recorded at job start. -/
theorem run_job_core (env : Env) (limit : Nat) (job : Job)
    (store0 : StoreState) :
    rsCore (run_job env limit job store0).finalState =
      rsCore (initialRunState job (env.clock 0)) := by
  rw [run_job_finalState, runFinalRS_core, runBody_core]
  rfl

/-- A successful movie selection is exactly the per-movie decision mapped
over the library. -/
theorem selectMovieCandidates_ok_eq (fromiso : String → Option Time)
    (tid : Nat) (cutoff now : Time) :
    ∀ (ms : List Movie) (l : List (Movie × Int)),
      selectMovieCandidates fromiso tid cutoff now ms = Except.ok l →
      l = ms.filterMap (pickMovie fromiso tid cutoff now) := by
  intro ms
  induction ms with
  | nil =>
    intro l h
    simp only [selectMovieCandidates, Except.ok.injEq] at h
    simp [← h]
  | cons m rest ih =>
    intro l h
    rw [List.filterMap_cons]
    unfold selectMovieCandidates at h
    by_cases htag : tid ∈ m.tags
    · rw [if_pos htag] at h
      by_cases hs0 : m.added.getD "" = ""
      · rw [if_pos hs0] at h
        rw [show pickMovie fromiso tid cutoff now m = none from by
          simp [pickMovie, htag, hs0]]
        exact ih l h
      · rw [if_neg hs0] at h
        rcases hp : fromiso (m.added.getD "") with _ | t
        · simp only [parse_radarr_date, hp] at h
          exact absurd h (by simp)
        · simp only [parse_radarr_date, hp] at h
          by_cases hc : t < cutoff
          · rw [if_pos hc] at h
            rcases hrest : selectMovieCandidates fromiso tid cutoff now rest with e | lr
            · rw [hrest] at h
              simp [Except.map] at h
            · rw [hrest] at h
              simp only [Except.map, Except.ok.injEq] at h
              rw [show pickMovie fromiso tid cutoff now m =
                  some (m, age_days_of now t) from by
                simp [pickMovie, htag, hs0, hp, hc]]
              rw [← h, ih lr hrest]
          · rw [if_neg hc] at h
            rw [show pickMovie fromiso tid cutoff now m = none from by
              simp [pickMovie, htag, hs0, hp, hc]]
            exact ih l h
    · rw [if_neg htag] at h
      rw [show pickMovie fromiso tid cutoff now m = none from by
        simp [pickMovie, htag]]
      exact ih l h

/-- Characterisation of the per-movie decision. -/
theorem pickMovie_eq_some (fromiso : String → Option Time) (tid : Nat)
    (cutoff now : Time) (m : Movie) (p : Movie × Int) :
    pickMovie fromiso tid cutoff now m = some p ↔
      tid ∈ m.tags ∧ ¬m.added.getD "" = "" ∧
        ∃ t, fromiso (m.added.getD "") = some t ∧ t < cutoff ∧
          p = (m, age_days_of now t) := by
  unfold pickMovie
  by_cases htag : tid ∈ m.tags
  · rw [if_pos htag]
    by_cases hs0 : m.added.getD "" = ""
    · simp [htag, hs0]
    · rw [if_neg hs0]
      rcases hp : fromiso (m.added.getD "") with _ | t
      · simp [htag, hs0]
      · by_cases hc : t < cutoff
        · simp [htag, hs0, hc, eq_comm]
        · simp [htag, hs0, hc]
  · rw [if_neg htag]
    simp [htag]

/-- If every tagged movie's timestamp is missing, empty or parsable, the
selection loop does not raise. -/
theorem selectMovieCandidates_ok (fromiso : String → Option Time)
    (tid : Nat) (cutoff now : Time) :
    ∀ ms : List Movie,
      (∀ m ∈ ms, tid ∈ m.tags → ¬m.added.getD "" = "" →
        ∃ t, fromiso (m.added.getD "") = some t) →
      exceptOk (selectMovieCandidates fromiso tid cutoff now ms) = true := by
  intro ms
  induction ms with
  | nil => intro _; simp [selectMovieCandidates, exceptOk]
  | cons m rest ih =>
    intro h
    have hrest := ih (fun m' hm' => h m' (List.mem_cons_of_mem m hm'))
    unfold selectMovieCandidates
    by_cases htag : tid ∈ m.tags
    · rw [if_pos htag]
      by_cases hs0 : m.added.getD "" = ""
      · rw [if_pos hs0]
        exact hrest
      · rw [if_neg hs0]
        obtain ⟨t, hp⟩ := h m (List.mem_cons_self m rest) htag hs0
        simp only [parse_radarr_date, hp]
        by_cases hc : t < cutoff
        · rw [if_pos hc]
          rcases hrest2 : selectMovieCandidates fromiso tid cutoff now rest with e | lr
          · rw [hrest2] at hrest; simp [exceptOk] at hrest
          · simp [Except.map, exceptOk]
        · rw [if_neg hc]; exact hrest
    · rw [if_neg htag]; exact hrest

/-- If some tagged movie has a nonempty unparsable timestamp, the selection
loop raises. -/
theorem selectMovieCandidates_err (fromiso : String → Option Time)
    (tid : Nat) (cutoff now : Time) :
    ∀ ms : List Movie,
      (∃ m ∈ ms, tid ∈ m.tags ∧ ¬m.added.getD "" = "" ∧
        fromiso (m.added.getD "") = none) →
      exceptOk (selectMovieCandidates fromiso tid cutoff now ms) = false := by
  intro ms
  induction ms with
  | nil => intro h; simp at h
  | cons m rest ih =>
    rintro ⟨m', hm', htag', hne', hp'⟩
    unfold selectMovieCandidates
    rcases List.mem_cons.mp hm' with rfl | hm'
    · rw [if_pos htag', if_neg hne']
      simp only [parse_radarr_date, hp']
      simp [exceptOk]
    · have hrest := ih ⟨m', hm', htag', hne', hp'⟩
      by_cases htag : tid ∈ m.tags
      · rw [if_pos htag]
        by_cases hs0 : m.added.getD "" = ""
        · rw [if_pos hs0]; exact hrest
        · rw [if_neg hs0]
          rcases hp : fromiso (m.added.getD "") with _ | t
          · simp [parse_radarr_date, hp, exceptOk]
          · simp only [parse_radarr_date, hp]
            by_cases hc : t < cutoff
            · rw [if_pos hc]
              rcases hrest2 : selectMovieCandidates fromiso tid cutoff now rest with e | lr
              · simp [Except.map, exceptOk]
              · rw [hrest2] at hrest; simp [exceptOk] at hrest
            · rw [if_neg hc]; exact hrest
      · rw [if_neg htag]; exact hrest

/-- A series delete call occurs in a second-pass footprint exactly when the
fresh query reported zero files and the job is not a dry run. -/
theorem deleteSeries_mem_spc (env : Env) (dry : Bool) (s : Series)
    (sid : Nat) (b : Bool) :
    RemoteCall.deleteSeries sid b ∈ secondPassCalls env dry s ↔
      (s.id = sid ∧ env.sonarr.episodeFilesSecond s.id = Except.ok [] ∧
        dry = false ∧ b = exceptOk (env.sonarr.deleteSeries s.id)) := by
  unfold secondPassCalls
  rcases hq : env.sonarr.episodeFilesSecond s.id with e | remaining
  · simp
  · rcases remaining with _ | ⟨f, fs⟩
    · by_cases hd : dry = true
      · simp [hd]
      · rw [Bool.not_eq_true] at hd
        subst hd
        simp [List.isEmpty, eq_comm (a := s.id)]
    · simp

/-- Every second-pass footprint opens with the fresh remaining-files query,
flagged with that query's outcome. -/
theorem query_mem_spc (env : Env) (dry : Bool) (s : Series) :
    RemoteCall.getEpisodeFiles s.id
        (exceptOk (env.sonarr.episodeFilesSecond s.id)) ∈
      secondPassCalls env dry s := by
  unfold secondPassCalls
  rcases hq : env.sonarr.episodeFilesSecond s.id with e | remaining
  · simp [exceptOk]
  · rcases remaining with _ | ⟨f, fs⟩
    · by_cases hd : dry = true <;> simp [hd, exceptOk]
    · simp [List.isEmpty, exceptOk]

/-- The episode loop's delete calls are all episode-file deletes. -/
theorem epDeleteCalls_shape (env : Env) (cands : List EpCand) :
    ∀ x ∈ epDeleteCalls env cands, ∃ i b, x = RemoteCall.deleteEpisodeFile i b := by
  intro x hx
  unfold epDeleteCalls at hx
  rw [List.mem_filterMap] at hx
  obtain ⟨cand, _, hc⟩ := hx
  rcases hid : cand.ef.id with _ | efid
  · rw [hid] at hc; simp [Option.map] at hc
  · rw [hid] at hc
    simp only [Option.map, Option.some_inj] at hc
    exact ⟨efid, _, hc.symm⟩

/-- The `episodes_then_series` Sonarr branch, when discovery succeeds, is
the episode loop followed by the second pass. -/
theorem runSonarr_ets (env : Env) (limit : Nat) (job : Job) (cutoff : Time)
    (c : Ctx)
    (hu : ¬env.cfg.sonarr_url = "") (hk : ¬env.cfg.sonarr_api_key = "")
    (ht : ¬sonarrTagId env job = 0)
    (hm : job.sonarr_delete_mode = "episodes_then_series")
    (cands : List EpCand)
    (hs : (fetchEpisodeCandidates env cutoff (env.clock c.tick)
      (sonarrTagged env job)).2 = Except.ok cands) :
    runSonarr env limit job cutoff c =
      (runSecondPass env limit job.id (sonarrTagged env job)
        (runEpisodeDeletions env limit job.id
          (sortDescBy (fun cand => cand.age) cands)
          (Ctx.record limit job.id
            { rs := { c.rs with candidates_found :=
                (sortDescBy (fun cand => cand.age) cands).length },
              store := c.store, tick := c.tick + 1,
              calls := c.calls ++ [RemoteCall.getTags, RemoteCall.getSeries] ++
                (fetchEpisodeCandidates env cutoff (env.clock c.tick)
                  (sonarrTagged env job)).1 })),
       Except.ok ()) := by
  unfold runSonarr
  rw [if_neg hu, if_neg hk, if_neg ht, if_neg (by simp [hm])]
  simp only [hs]
  rw [if_pos hm]

/-- Finalization never touches the recorded deletion entries. -/
theorem runFinalRS_deleted (env : Env) (br : Ctx × Except String Unit) :
    (runFinalRS env br).deleted = br.1.rs.deleted := by
  unfold runFinalRS
  rcases hbr : br.2 with e | u <;> simp

/-- Finalization never touches the candidate count. -/
theorem runFinalRS_candidates (env : Env) (br : Ctx × Except String Unit) :
    (runFinalRS env br).candidates_found = br.1.rs.candidates_found := by
  unfold runFinalRS
  rcases hbr : br.2 with e | u <;> simp

/-- Route of a Sonarr job through the body dispatcher. -/
theorem runBody_sonarr (env : Env) (limit : Nat) (job : Job) (c : Ctx)
    (happ : job.app = "sonarr") :
    runBody env limit job c =
      runSonarr env limit job (env.clock c.tick - job.days_old * 86400)
        { c with tick := c.tick + 1 } := by
  unfold runBody
  rw [if_neg (by rw [happ]; decide), if_pos happ]

/-- The episode loop never changes the dry-run flag. -/
theorem runEpisodeDeletions_dry_run (env : Env) (limit : Nat) (jid : String)
    (cands : List EpCand) (c : Ctx) :
    (runEpisodeDeletions env limit jid cands c).rs.dry_run = c.rs.dry_run := by
  have h := runEpisodeDeletions_core env limit jid cands c
  show (rsCore (runEpisodeDeletions env limit jid cands c).rs).dry_run =
    (rsCore c.rs).dry_run
  exact congrArg RunState.dry_run h


/-! Claim theorems. -/

/-- Claim C3 as frozen is false on the code: in a dry-run job
`deleted_count` is never updated (the dry-run path appends the entry and
`continue`s past the counter update), so it stays `0` while `deleted`
grows.  Concretely: a dry-run movie job with one eligible candidate ends
with one recorded would-delete entry but `deleted_count = 0 ≠ 1 =
len(deleted)`. -/
theorem C3_counterexample :
    (run_job radarrEnv1 20 (jobR true) emptyStore).finalState.dry_run = true ∧
    (run_job radarrEnv1 20 (jobR true) emptyStore).finalState.deleted.length = 1 ∧
    (run_job radarrEnv1 20 (jobR true) emptyStore).finalState.deleted_count = 0 ∧
    ¬((run_job radarrEnv1 20 (jobR true) emptyStore).finalState.deleted_count =
      (run_job radarrEnv1 20 (jobR true) emptyStore).finalState.deleted.length) := by
  decide

/-- Claim C3, amended: at every recorded point, `deleted_count` equals the
number of entries in `deleted` whose `deleted_at` is non-null — for dry-run
jobs as well, whose entries all have `deleted_at = null`, so `deleted_count`
stays `0` there (it does NOT equal `len(deleted)`).  The invariant holds of
the final state and of every run-state snapshot recorded into the global
history during the run. -/
theorem C3_deleted_count_invariant (env : Env) (limit : Nat) (job : Job)
    (store0 : StoreState) :
    (run_job env limit job store0).finalState.deleted_count =
      countDeleted (run_job env limit job store0).finalState.deleted ∧
    (job.dry_run = true →
      (run_job env limit job store0).finalState.deleted_count = 0) ∧
    (∀ rs ∈ (run_job env limit job store0).store.run_history,
      rs ∈ store0.run_history ∨ rs.deleted_count = countDeleted rs.deleted) := by
  obtain ⟨h1, h2, _, h4, _⟩ := run_job_pres env limit job store0
  refine ⟨h1, ?_, h2⟩
  intro hdt
  rw [h1, countDeleted_eq_zero _ (h4 hdt).1]

/-- Claim C3 witness: the amended invariant evaluated on the concrete
dry-run fixture gives `deleted_count = 0`. -/
theorem C3_deleted_count_invariant_witness :
    (run_job radarrEnv1 20 (jobR true) emptyStore).finalState.deleted_count = 0 :=
  (C3_deleted_count_invariant radarrEnv1 20 (jobR true) emptyStore).2.1 rfl

/-- Claim C6: every candidate list the job runner produces — movie
candidates, `series`-mode candidates and episode-file candidates — is
sorted by `sortDescBy` on `age_days`, and the sorted output is descending:
each later element's age is at most each earlier one's. -/
theorem C6_candidates_sorted :
    (∀ l : List (Movie × Int),
      (sortDescBy (fun p => p.2) l).Pairwise (fun a b => b.2 ≤ a.2)) ∧
    (∀ l : List (Series × Int),
      (sortDescBy (fun p => p.2) l).Pairwise (fun a b => b.2 ≤ a.2)) ∧
    (∀ l : List EpCand,
      (sortDescBy (fun cand => cand.age) l).Pairwise (fun a b => b.age ≤ a.age)) :=
  ⟨fun l => sortDescBy_pairwise (fun p => p.2) l,
   fun l => sortDescBy_pairwise (fun p => p.2) l,
   fun l => sortDescBy_pairwise (fun cand => cand.age) l⟩

/-- Claim C9: `record_run` updates all four history views together —
global last run, per-job last run, global history, per-job history — it
prepends the new run state to both history lists and truncates each to the
cap, discarding the oldest-by-position tail; pushing onto a full history
of exactly `limit` entries keeps the new head and evicts exactly the
oldest-by-position entry. -/
theorem C9_record_run (limit : Nat) (store : StoreState) (jid : String)
    (rs : RunState) :
    (record_run limit store jid rs).last_run = some rs ∧
    assocGet (record_run limit store jid rs).last_runs jid = some rs ∧
    (record_run limit store jid rs).run_history =
      (rs :: store.run_history).take limit ∧
    assocGet (record_run limit store jid rs).run_history_by_job jid =
      some ((rs :: (assocGet store.run_history_by_job jid).getD []).take limit) ∧
    (record_run limit store jid rs).run_history.length ≤ limit ∧
    (store.run_history.length = limit → 0 < limit →
      (record_run limit store jid rs).run_history =
        rs :: store.run_history.dropLast) ∧
    (((assocGet store.run_history_by_job jid).getD []).length = limit →
      0 < limit →
      assocGet (record_run limit store jid rs).run_history_by_job jid =
        some (rs :: ((assocGet store.run_history_by_job jid).getD []).dropLast)) := by
  refine ⟨rfl, assocGet_assocSet _ _ _, rfl, assocGet_assocSet _ _ _, ?_, ?_, ?_⟩
  · show ((rs :: store.run_history).take limit).length ≤ limit
    rw [List.length_take]
    exact min_le_left _ _
  · intro hfull hpos
    show (rs :: store.run_history).take limit = rs :: store.run_history.dropLast
    exact take_cons_of_length rs store.run_history limit hfull hpos
  · intro hfull hpos
    have h4 : assocGet (record_run limit store jid rs).run_history_by_job jid =
        some ((rs :: (assocGet store.run_history_by_job jid).getD []).take limit) :=
      assocGet_assocSet _ _ _
    rw [h4, take_cons_of_length rs _ limit hfull hpos]

/-- Claim C9 witness: pushing a 21st entry onto a full 20-entry store keeps
the new head and drops exactly the oldest-by-position entry of both the
global and the per-job history. -/
theorem C9_record_run_witness :
    (record_run 20 store20 "j1" rsD2).run_history =
      rsD2 :: List.replicate 19 rsDummy ∧
    assocGet (record_run 20 store20 "j1" rsD2).run_history_by_job "j1" =
      some (rsD2 :: List.replicate 19 rsDummy) := by
  have h := C9_record_run 20 store20 "j1" rsD2
  constructor
  · rw [h.2.2.2.2.2.1 (by decide) (by decide)]
    decide
  · rw [h.2.2.2.2.2.2 (by decide) (by decide)]
    decide

/-- Claim C8: every job execution ends in exactly one finalization that
always runs: `finished_at` is stamped, `duration_seconds` is the elapsed
time from `started_at` to that stamp, and the final state is recorded into
the store (global and per-job last-run pointers); on normal completion the
result is the final state with status `ok` when `errors` is empty and
`ok_with_errors` otherwise; on an exception the exception message is the
last entry appended to `errors`, the status is `failed`, and the exception
is re-raised (the result is that error) after finalization. -/
theorem C8_finalization (env : Env) (limit : Nat) (job : Job)
    (store0 : StoreState) :
    (∃ tf, (run_job env limit job store0).finalState.finished_at = some tf ∧
      (run_job env limit job store0).finalState.duration_seconds =
        some (tf - (run_job env limit job store0).finalState.started_at)) ∧
    (run_job env limit job store0).store.last_run =
      some (run_job env limit job store0).finalState ∧
    assocGet (run_job env limit job store0).store.last_runs job.id =
      some (run_job env limit job store0).finalState ∧
    (((run_job env limit job store0).result =
        Except.ok (run_job env limit job store0).finalState ∧
      (run_job env limit job store0).finalState.status =
        (if (run_job env limit job store0).finalState.errors.isEmpty then
          "ok" else "ok_with_errors")) ∨
     (∃ e, (run_job env limit job store0).result = Except.error e ∧
       (run_job env limit job store0).finalState.status = "failed" ∧
       (run_job env limit job store0).finalState.errors.getLast? = some e)) := by
  have hst : (run_job env limit job store0).finalState.started_at = env.clock 0 := by
    have h := run_job_core env limit job store0
    show (rsCore (run_job env limit job store0).finalState).started_at =
      (rsCore (initialRunState job (env.clock 0))).started_at
    exact congrArg RunState.started_at h
  refine ⟨⟨env.clock (runBody env limit job (runCtx0 env limit job store0)).1.tick,
      ?_, ?_⟩, ?_, ?_, ?_⟩
  · rw [run_job_finalState]
    rfl
  · rw [hst, run_job_finalState]
    rfl
  · rfl
  · rw [run_job_store, run_job_finalState]
    exact assocGet_assocSet _ _ _
  · rcases hbr : (runBody env limit job (runCtx0 env limit job store0)).2 with e | u
    · right
      refine ⟨e, ?_, ?_, ?_⟩
      · rw [run_job_result, hbr]
      · rw [run_job_finalState]
        unfold runFinalRS
        rw [hbr]
      · rw [run_job_finalState]
        unfold runFinalRS
        rw [hbr]
        exact List.getLast?_concat _
    · left
      constructor
      · rw [run_job_result, hbr, run_job_finalState]
      · rw [run_job_finalState]
        unfold runFinalRS
        rw [hbr]


/-- Claim C5: with `cutoff = now − days_old` (in seconds), a tagged item
with a parsable added timestamp becomes a candidate exactly when its
timestamp is strictly before the cutoff, and every candidate's `age_days`
is `floor((now − added) / 86400)`; stated for all three selection
pipelines (movie library, series mode, episode files). -/
theorem C5_selection (fromiso : String → Option Time) (tid : Nat)
    (days now cutoff : Time) (hcut : cutoff = now - days * 86400) :
    (∀ (ms : List Movie) (l : List (Movie × Int)),
      selectMovieCandidates fromiso tid cutoff now ms = Except.ok l →
      ∀ (m : Movie) (a : Int),
        ((m, a) ∈ l ↔ m ∈ ms ∧ tid ∈ m.tags ∧ ¬m.added.getD "" = "" ∧
          ∃ t, fromiso (m.added.getD "") = some t ∧ t < cutoff ∧
            a = Int.fdiv (now - t) 86400)) ∧
    (∀ (ss : List Series) (s : Series) (a : Int),
      ((s, a) ∈ selectSeriesCandidates fromiso cutoff now ss ↔
        s ∈ ss ∧ ∃ t, parse_iso_date fromiso (s.added.getD "") = some t ∧
          t < cutoff ∧ a = Int.fdiv (now - t) 86400)) ∧
    (∀ (sObj : Series) (efiles : List EpisodeFile) (cand : EpCand),
      (cand ∈ eligibleEpisodeFiles fromiso cutoff now sObj efiles ↔
        ∃ ef ∈ efiles, ∃ t, parse_iso_date fromiso ef.dateAdded = some t ∧
          t < cutoff ∧ cand = ⟨sObj.id, ef, Int.fdiv (now - t) 86400, sObj⟩)) := by
  refine ⟨?_, ?_, ?_⟩
  · intro ms l h m a
    rw [selectMovieCandidates_ok_eq fromiso tid cutoff now ms l h,
      List.mem_filterMap]
    constructor
    · rintro ⟨m', hm', hp⟩
      obtain ⟨htag, hne, t, hpt, hc, hpair⟩ :=
        (pickMovie_eq_some fromiso tid cutoff now m' ((m, a))).mp hp
      rw [Prod.mk.injEq] at hpair
      obtain ⟨h1, h2⟩ := hpair
      subst h1
      exact ⟨hm', htag, hne, t, hpt, hc, h2⟩
    · rintro ⟨hm, htag, hne, t, hpt, hc, ha⟩
      refine ⟨m, hm, ?_⟩
      exact (pickMovie_eq_some fromiso tid cutoff now m ((m, a))).mpr
        ⟨htag, hne, t, hpt, hc, by rw [ha]; rfl⟩
  · intro ss s a
    unfold selectSeriesCandidates
    rw [List.mem_filterMap]
    constructor
    · rintro ⟨s', hs', hf⟩
      rcases hp : parse_iso_date fromiso (s'.added.getD "") with _ | t
      · rw [hp] at hf
        exact absurd hf (by simp)
      · rw [hp] at hf
        by_cases hc : t < cutoff
        · simp only [hc, if_true, Option.some_inj, Prod.mk.injEq] at hf
          obtain ⟨h1, h2⟩ := hf
          subst h1
          exact ⟨hs', t, hp, hc, h2.symm⟩
        · simp [hc] at hf
    · rintro ⟨hs, t, hpt, hc, ha⟩
      refine ⟨s, hs, ?_⟩
      rw [hpt]
      simp only [hc, if_true, Option.some_inj, Prod.mk.injEq]
      exact ⟨by trivial, by rw [ha]; rfl⟩
  · intro sObj efiles cand
    unfold eligibleEpisodeFiles
    rw [List.mem_filterMap]
    constructor
    · rintro ⟨ef, hef, hf⟩
      rcases hp : parse_iso_date fromiso ef.dateAdded with _ | t
      · rw [hp] at hf
        exact absurd hf (by simp)
      · rw [hp] at hf
        by_cases hc : t < cutoff
        · simp only [hc, if_true, Option.some_inj] at hf
          exact ⟨ef, hef, t, hp, hc, hf.symm⟩
        · simp [hc] at hf
    · rintro ⟨ef, hef, t, hpt, hc, hcand⟩
      refine ⟨ef, hef, ?_⟩
      rw [hpt]
      simp only [hc, if_true, Option.some_inj]
      rw [hcand]
      rfl

/-- Claim C5 witness: a movie added 50 whole days before `now` with a
30-day threshold is selected with `age_days = 50`. -/
theorem C5_selection_witness :
    (oldMovie, (50 : Int)) ∈ [(oldMovie, (50 : Int))] := by
  have h := C5_selection tIso 1 30 (50 * 86400) (50 * 86400 - 30 * 86400) rfl
  exact (h.1 [oldMovie] [(oldMovie, (50 : Int))] (by decide) oldMovie 50).mpr
    ⟨by decide, by decide, by decide, 0, by decide, by decide, by decide⟩

/-- Claim C4 as frozen is false on the code: the movie-library selection
path parses timestamps with `parse_radarr_date`, which raises on an
unparsable value (no try/except wraps it), so a tagged movie whose `added`
does not parse fails the whole job instead of being excluded.  Concretely:
one tagged movie with `added = "garbage"` makes the run finish with status
`failed` and a raised exception. -/
theorem C4_counterexample :
    (run_job radarrEnvBad 20 (jobR true) emptyStore).finalState.status = "failed" ∧
    exceptOk (run_job radarrEnvBad 20 (jobR true) emptyStore).result = false ∧
    (run_job radarrEnvBad 20 (jobR true) emptyStore).finalState.errors =
      ["Invalid isoformat string: garbage"] := by
  decide

/-- Claim C4, amended: a missing or empty timestamp is excluded without
raising on both paths; an unparsable timestamp is excluded without raising
on the series-library paths (`parse_iso_date` swallows the failure), but
on the movie-library path an unparsable timestamp raises and the job
fails.  Formally: (1) every movie candidate has a nonempty parsable
timestamp; (2) the movie selection succeeds when every tagged movie's
timestamp is missing, empty or parsable; (3) it raises when some tagged
movie has a nonempty unparsable timestamp; (4, 5) every series-mode and
episode-file candidate has a parsable timestamp, and those selectors are
total (they cannot raise). -/
theorem C4_date_handling :
    (∀ (fromiso : String → Option Time) (tid : Nat) (cutoff now : Time)
      (ms : List Movie) (l : List (Movie × Int)),
      selectMovieCandidates fromiso tid cutoff now ms = Except.ok l →
      ∀ p ∈ l, ¬p.1.added.getD "" = "" ∧
        ∃ t, fromiso (p.1.added.getD "") = some t) ∧
    (∀ (fromiso : String → Option Time) (tid : Nat) (cutoff now : Time)
      (ms : List Movie),
      (∀ m ∈ ms, tid ∈ m.tags → ¬m.added.getD "" = "" →
        ∃ t, fromiso (m.added.getD "") = some t) →
      exceptOk (selectMovieCandidates fromiso tid cutoff now ms) = true) ∧
    (∀ (fromiso : String → Option Time) (tid : Nat) (cutoff now : Time)
      (ms : List Movie),
      (∃ m ∈ ms, tid ∈ m.tags ∧ ¬m.added.getD "" = "" ∧
        fromiso (m.added.getD "") = none) →
      exceptOk (selectMovieCandidates fromiso tid cutoff now ms) = false) ∧
    (∀ (fromiso : String → Option Time) (cutoff now : Time)
      (ss : List Series) (p : Series × Int),
      p ∈ selectSeriesCandidates fromiso cutoff now ss →
      ∃ t, parse_iso_date fromiso (p.1.added.getD "") = some t) ∧
    (∀ (fromiso : String → Option Time) (cutoff now : Time) (sObj : Series)
      (efiles : List EpisodeFile) (cand : EpCand),
      cand ∈ eligibleEpisodeFiles fromiso cutoff now sObj efiles →
      ∃ t, parse_iso_date fromiso cand.ef.dateAdded = some t) := by
  refine ⟨?_, ?_, ?_, ?_, ?_⟩
  · intro fromiso tid cutoff now ms l h p hp
    rw [selectMovieCandidates_ok_eq fromiso tid cutoff now ms l h,
      List.mem_filterMap] at hp
    obtain ⟨m', hm', hpick⟩ := hp
    obtain ⟨htag, hne, t, hpt, hc, hpair⟩ :=
      (pickMovie_eq_some fromiso tid cutoff now m' p).mp hpick
    rw [hpair]
    exact ⟨hne, t, hpt⟩
  · intro fromiso tid cutoff now ms h
    exact selectMovieCandidates_ok fromiso tid cutoff now ms h
  · intro fromiso tid cutoff now ms h
    exact selectMovieCandidates_err fromiso tid cutoff now ms h
  · intro fromiso cutoff now ss p hp
    unfold selectSeriesCandidates at hp
    rw [List.mem_filterMap] at hp
    obtain ⟨s', hs', hf⟩ := hp
    rcases hq : parse_iso_date fromiso (s'.added.getD "") with _ | t
    · rw [hq] at hf
      exact absurd hf (by simp)
    · rw [hq] at hf
      by_cases hc : t < cutoff
      · simp only [hc, if_true, Option.some_inj] at hf
        subst hf
        exact ⟨t, hq⟩
      · simp [hc] at hf
  · intro fromiso cutoff now sObj efiles cand hc0
    unfold eligibleEpisodeFiles at hc0
    rw [List.mem_filterMap] at hc0
    obtain ⟨ef, hef, hf⟩ := hc0
    rcases hq : parse_iso_date fromiso ef.dateAdded with _ | t
    · rw [hq] at hf
      exact absurd hf (by simp)
    · rw [hq] at hf
      by_cases hc : t < cutoff
      · simp only [hc, if_true, Option.some_inj] at hf
        rw [← hf]
        exact ⟨t, hq⟩
      · simp [hc] at hf

/-- Claim C4 witness: the amended statement evaluated on concrete inputs —
selection succeeds on a library whose tagged movie parses, and raises on a
library whose tagged movie has a nonempty unparsable timestamp. -/
theorem C4_date_handling_witness :
    exceptOk (selectMovieCandidates tIso 1 (20 * 86400) (50 * 86400) [oldMovie]) = true ∧
    exceptOk (selectMovieCandidates tIso 1 (20 * 86400) (50 * 86400) [badMovie]) = false := by
  constructor
  · refine C4_date_handling.2.1 tIso 1 (20 * 86400) (50 * 86400) [oldMovie] ?_
    intro m hm _ _
    rw [List.mem_singleton] at hm
    subst hm
    exact ⟨0, by decide⟩
  · exact C4_date_handling.2.2.1 tIso 1 (20 * 86400) (50 * 86400) [badMovie]
      ⟨badMovie, by decide, by decide, by decide, by decide⟩


/-- Claim C1 as frozen is false on the code in one corner: an episode-file
candidate whose remote record lacks an `id` is skipped (`if efid is None:
continue`) *before* the dry-run branch, so it is never recorded as a
would-delete entry.  Concretely: a dry-run `episodes_only` job with one
eligible id-less episode file reports one candidate but records no entry
(while still making zero mutating calls). -/
theorem C1_counterexample :
    (run_job sonarrEnvNoId 20 (jobS true "episodes_only") emptyStore).finalState.candidates_found = 1 ∧
    (run_job sonarrEnvNoId 20 (jobS true "episodes_only") emptyStore).finalState.deleted = [] ∧
    (run_job sonarrEnvNoId 20 (jobS true "episodes_only") emptyStore).calls.countP
      (fun x => x.isMutating) = 0 := by
  decide

/-- Claim C1, amended: a dry-run job makes zero mutating remote calls and
every entry it records has `deleted_at = null`; each movie and series
candidate is recorded, in order, as a would-delete entry, and each
episode-file candidate is so recorded except one whose remote record lacks
an id, which is skipped without being recorded. -/
theorem C1_dry_run (env : Env) (limit : Nat) (job : Job)
    (store0 : StoreState) (hdry : job.dry_run = true) :
    (run_job env limit job store0).calls.countP (fun x => x.isMutating) = 0 ∧
    (∀ e ∈ (run_job env limit job store0).finalState.deleted,
      e.deleted_at = none) ∧
    (∀ (jid : String) (cands : List (Movie × Int)) (c : Ctx),
      c.rs.dry_run = true →
      runMovieDeletions env limit jid cands c =
        { c with rs := { c.rs with deleted :=
            c.rs.deleted ++ cands.map (fun p => movieEntry true p.1 p.2) } }) ∧
    (∀ (jid : String) (cands : List (Series × Int)) (c : Ctx),
      c.rs.dry_run = true →
      runSeriesDeletions env limit jid cands c =
        { c with rs := { c.rs with deleted :=
            c.rs.deleted ++ cands.map (fun p => seriesModeEntry true p.1 p.2) } }) ∧
    (∀ (jid : String) (cands : List EpCand) (c : Ctx),
      c.rs.dry_run = true →
      runEpisodeDeletions env limit jid cands c =
        { c with rs := { c.rs with deleted :=
            c.rs.deleted ++ epDryEntries cands } }) := by
  obtain ⟨_, _, _, h4, _⟩ := run_job_pres env limit job store0
  obtain ⟨ha, hb⟩ := h4 hdry
  exact ⟨hb, ha,
    fun jid cands c h => runMovieDeletions_dry env limit jid cands c h,
    fun jid cands c h => runSeriesDeletions_dry env limit jid cands c h,
    fun jid cands c h => runEpisodeDeletions_dry env limit jid cands c h⟩

/-- Claim C1 witness: on the concrete dry-run movie fixture, no mutating
call is made. -/
theorem C1_dry_run_witness :
    (run_job radarrEnv1 20 (jobR true) emptyStore).calls.countP
      (fun x => x.isMutating) = 0 :=
  (C1_dry_run radarrEnv1 20 (jobR true) emptyStore rfl).1

/-- Claim C7 as frozen is false on the code in one corner: in
`episodes_then_series` mode a failed *remaining-files query* during the
second pass appends an error string without any deletion having been
attempted, so at job end `len(errors)` can exceed the number of failed
deletion attempts.  Concretely: a run with no candidates and a failing
second-pass query ends normally with one error, zero failed deletes and
zero mutating calls. -/
theorem C7_counterexample :
    exceptOk (run_job sonarrEnvQFail 20 (jobS false "episodes_then_series") emptyStore).result = true ∧
    (run_job sonarrEnvQFail 20 (jobS false "episodes_then_series") emptyStore).finalState.errors.length = 1 ∧
    (run_job sonarrEnvQFail 20 (jobS false "episodes_then_series") emptyStore).calls.countP
      (fun x => x.isFailedDelete) = 0 ∧
    (run_job sonarrEnvQFail 20 (jobS false "episodes_then_series") emptyStore).calls.countP
      (fun x => x.isMutating) = 0 := by
  decide

/-- Claim C7, amended: one candidate's delete failure never stops the
remaining candidates — outside dry-run each loop attempts exactly one
delete call per candidate (per candidate with an id, for episode files),
in order, whatever the outcomes of earlier attempts; and when the job ends
without a job-level exception, `len(errors)` equals the number of failed
deletion attempts plus (for `episodes_then_series`) the number of failed
second-pass remaining-files queries. -/
theorem C7_error_isolation (env : Env) (limit : Nat) (job : Job)
    (store0 : StoreState) :
    (exceptOk (run_job env limit job store0).result = true →
      (run_job env limit job store0).finalState.errors.length =
        (run_job env limit job store0).calls.countP (fun x => x.isFailedDelete) +
        (run_job env limit job store0).calls.countP (fun x => x.isFailedQuery)) ∧
    (∀ (jid : String) (cands : List (Movie × Int)) (c : Ctx),
      c.rs.dry_run = false →
      (runMovieDeletions env limit jid cands c).calls =
        c.calls ++ cands.map (fun p => RemoteCall.deleteMovie p.1.id
          (exceptOk (env.radarr.deleteMovie p.1.id)))) ∧
    (∀ (jid : String) (cands : List (Series × Int)) (c : Ctx),
      c.rs.dry_run = false →
      (runSeriesDeletions env limit jid cands c).calls =
        c.calls ++ cands.map (fun p => RemoteCall.deleteSeries p.1.id
          (exceptOk (env.sonarr.deleteSeries p.1.id)))) ∧
    (∀ (jid : String) (cands : List EpCand) (c : Ctx),
      c.rs.dry_run = false →
      (runEpisodeDeletions env limit jid cands c).calls =
        c.calls ++ epDeleteCalls env cands) := by
  obtain ⟨_, _, _, _, h5⟩ := run_job_pres env limit job store0
  exact ⟨h5,
    fun jid cands c h => runMovieDeletions_calls env limit jid cands c h,
    fun jid cands c h => runSeriesDeletions_calls env limit jid cands c h,
    fun jid cands c h => runEpisodeDeletions_calls env limit jid cands c h⟩

/-- Claim C7 witness: on a concrete run whose only delete attempt fails,
the job ends normally with exactly one error, matching the one failed
delete call. -/
theorem C7_error_isolation_witness :
    (run_job radarrEnvFail 20 (jobR false) emptyStore).finalState.errors.length =
      (run_job radarrEnvFail 20 (jobR false) emptyStore).calls.countP
        (fun x => x.isFailedDelete) +
      (run_job radarrEnvFail 20 (jobR false) emptyStore).calls.countP
        (fun x => x.isFailedQuery) :=
  (C7_error_isolation radarrEnvFail 20 (jobR false) emptyStore).1 (by decide)

/-- Claim C10: a failed non-dry deletion attempt leaves `deleted` and
`deleted_count` untouched and appends exactly one error string — shown for
all four delete sites (movie, series mode, episode file, second-pass
series removal) — and consequently the final `deleted` list only ever
holds successfully deleted entries (`deleted_at` set) or dry-run
would-delete entries; a failed candidate contributes no entry at all. -/
theorem C10_failed_delete_no_entry (env : Env) (limit : Nat) :
    (∀ (jid : String) (c : Ctx) (p : Movie × Int) (e : String),
      c.rs.dry_run = false → env.radarr.deleteMovie p.1.id = Except.error e →
      (movieStep env limit jid c p).rs.deleted = c.rs.deleted ∧
      (movieStep env limit jid c p).rs.deleted_count = c.rs.deleted_count ∧
      (movieStep env limit jid c p).rs.errors =
        c.rs.errors ++ [radarrDeleteErr p.1.id p.1.title e]) ∧
    (∀ (jid : String) (c : Ctx) (p : Series × Int) (e : String),
      c.rs.dry_run = false → env.sonarr.deleteSeries p.1.id = Except.error e →
      (seriesStep env limit jid c p).rs.deleted = c.rs.deleted ∧
      (seriesStep env limit jid c p).rs.deleted_count = c.rs.deleted_count ∧
      (seriesStep env limit jid c p).rs.errors =
        c.rs.errors ++ [sonarrSeriesErr p.1.id p.1.title e]) ∧
    (∀ (jid : String) (c : Ctx) (cand : EpCand) (efid : Nat) (e : String),
      cand.ef.id = some efid → c.rs.dry_run = false →
      env.sonarr.deleteEpisodeFile efid = Except.error e →
      (episodeStep env limit jid c cand).rs.deleted = c.rs.deleted ∧
      (episodeStep env limit jid c cand).rs.deleted_count = c.rs.deleted_count ∧
      (episodeStep env limit jid c cand).rs.errors =
        c.rs.errors ++ [sonarrEpisodeErr efid cand.sid e]) ∧
    (∀ (jid : String) (c : Ctx) (sObj : Series) (e : String),
      c.rs.dry_run = false →
      env.sonarr.episodeFilesSecond sObj.id = Except.ok [] →
      env.sonarr.deleteSeries sObj.id = Except.error e →
      (secondPassStep env limit jid c sObj).rs.deleted = c.rs.deleted ∧
      (secondPassStep env limit jid c sObj).rs.deleted_count = c.rs.deleted_count ∧
      (secondPassStep env limit jid c sObj).rs.errors =
        c.rs.errors ++ [sonarrRemoveErr sObj.id sObj.title e]) ∧
    (∀ (job : Job) (store0 : StoreState),
      ∀ en ∈ (run_job env limit job store0).finalState.deleted,
        en.deleted_at.isSome = true ∨ en.dry_run = true) := by
  refine ⟨?_, ?_, ?_, ?_, ?_⟩
  · intro jid c p e h hd
    rw [movieStep_err_eq env limit jid c p h e hd]
    exact ⟨rfl, rfl, rfl⟩
  · intro jid c p e h hd
    rw [seriesStep_err_eq env limit jid c p h e hd]
    exact ⟨rfl, rfl, rfl⟩
  · intro jid c cand efid e hid h hd
    rw [episodeStep_err_eq env limit jid c cand efid hid h e hd]
    exact ⟨rfl, rfl, rfl⟩
  · intro jid c sObj e h hq hd
    rw [secondPassStep_empty_err_eq env limit jid c sObj hq h e hd]
    exact ⟨rfl, rfl, rfl⟩
  · intro job store0
    exact (run_job_pres env limit job store0).2.2.1

/-- Claim C10 witness: on the concrete failing-delete fixture the one
failed attempt leaves no entry and one error, and the final run records no
deleted entry. -/
theorem C10_failed_delete_no_entry_witness :
    (movieStep radarrEnvFail 20 "j1" (runCtx0 radarrEnvFail 20 (jobR false) emptyStore)
      (oldMovie, 50)).rs.deleted = [] ∧
    (run_job radarrEnvFail 20 (jobR false) emptyStore).finalState.deleted = [] := by
  have h := C10_failed_delete_no_entry radarrEnvFail 20
  refine ⟨?_, by decide⟩
  rw [(h.1 "j1" (runCtx0 radarrEnvFail 20 (jobR false) emptyStore)
    (oldMovie, 50) "HTTP 500" rfl rfl).1]
  rfl


/-- Claim C2: in `episodes_then_series` mode (with reachable configuration
and successful candidate discovery), after all episode-file deletions the
second pass makes one fresh remaining-episode-files query per tagged
series; the series delete endpoint is invoked (or, under dry-run, a
would-remove entry recorded) exactly for the tagged series whose fresh
query reports zero remaining files; a series whose fresh query reports any
remaining file is never deleted.  The decomposition of the wire trace into
a delete-free prefix followed by the per-series second-pass footprints
also shows the second pass runs after all episode deletions. -/
theorem C2_second_pass (env : Env) (limit : Nat) (job : Job)
    (store0 : StoreState)
    (happ : job.app = "sonarr")
    (hmode : job.sonarr_delete_mode = "episodes_then_series")
    (hu : ¬env.cfg.sonarr_url = "") (hk : ¬env.cfg.sonarr_api_key = "")
    (ht : ¬sonarrTagId env job = 0)
    (cands : List EpCand)
    (hfetch : (fetchEpisodeCandidates env (env.clock 1 - job.days_old * 86400)
      (env.clock 2) (sonarrTagged env job)).2 = Except.ok cands) :
    (∃ pre, (run_job env limit job store0).calls =
        pre ++ (sonarrTagged env job).flatMap (secondPassCalls env job.dry_run) ∧
      ∀ (sid : Nat) (b : Bool), RemoteCall.deleteSeries sid b ∉ pre) ∧
    (∀ s ∈ sonarrTagged env job,
      RemoteCall.getEpisodeFiles s.id
        (exceptOk (env.sonarr.episodeFilesSecond s.id)) ∈
        (run_job env limit job store0).calls) ∧
    (∀ (sid : Nat) (b : Bool),
      RemoteCall.deleteSeries sid b ∈ (run_job env limit job store0).calls ↔
        ((∃ s ∈ sonarrTagged env job, s.id = sid) ∧
          env.sonarr.episodeFilesSecond sid = Except.ok [] ∧
          job.dry_run = false ∧
          b = exceptOk (env.sonarr.deleteSeries sid))) ∧
    (job.dry_run = true → ∃ preD,
      (run_job env limit job store0).finalState.deleted =
        preD ++ secondPassDryEntries env (sonarrTagged env job)) := by
  have hroute : runBody env limit job (runCtx0 env limit job store0) =
      runSonarr env limit job
        (env.clock (runCtx0 env limit job store0).tick - job.days_old * 86400)
        { runCtx0 env limit job store0 with
          tick := (runCtx0 env limit job store0).tick + 1 } :=
    runBody_sonarr env limit job _ happ
  have hmain : ∃ c4 : Ctx,
      runBody env limit job (runCtx0 env limit job store0) =
        (runSecondPass env limit job.id (sonarrTagged env job) c4,
         Except.ok ()) ∧
      c4.rs.dry_run = job.dry_run ∧
      (∀ (sid : Nat) (b : Bool), RemoteCall.deleteSeries sid b ∉ c4.calls) := by
    refine ⟨runEpisodeDeletions env limit job.id
        (sortDescBy (fun cand => cand.age) cands)
        (Ctx.record limit job.id
          { rs := { (runCtx0 env limit job store0).rs with candidates_found :=
              (sortDescBy (fun cand => cand.age) cands).length },
            store := (runCtx0 env limit job store0).store,
            tick := (runCtx0 env limit job store0).tick + 1 + 1,
            calls := (runCtx0 env limit job store0).calls ++
              [RemoteCall.getTags, RemoteCall.getSeries] ++
              (fetchEpisodeCandidates env
                (env.clock (runCtx0 env limit job store0).tick -
                  job.days_old * 86400)
                (env.clock ((runCtx0 env limit job store0).tick + 1))
                (sonarrTagged env job)).1 }), ?_, ?_, ?_⟩
    · rw [hroute]
      exact runSonarr_ets env limit job _ _ hu hk ht hmode cands (by exact hfetch)
    · exact (runEpisodeDeletions_dry_run env limit job.id _ _).trans rfl
    · intro sid b hmem
      have hsplit : ∀ x ∈ (runEpisodeDeletions env limit job.id
          (sortDescBy (fun cand => cand.age) cands)
          (Ctx.record limit job.id
            { rs := { (runCtx0 env limit job store0).rs with candidates_found :=
                (sortDescBy (fun cand => cand.age) cands).length },
              store := (runCtx0 env limit job store0).store,
              tick := (runCtx0 env limit job store0).tick + 1 + 1,
              calls := (runCtx0 env limit job store0).calls ++
                [RemoteCall.getTags, RemoteCall.getSeries] ++
                (fetchEpisodeCandidates env
                  (env.clock (runCtx0 env limit job store0).tick -
                    job.days_old * 86400)
                  (env.clock ((runCtx0 env limit job store0).tick + 1))
                  (sonarrTagged env job)).1 })).calls,
          (x ∈ [RemoteCall.getTags, RemoteCall.getSeries] ∨
            (∃ i bb, x = RemoteCall.getEpisodeFiles i bb) ∨
            (∃ i bb, x = RemoteCall.deleteEpisodeFile i bb)) := by
        intro x hx
        by_cases hdt : job.dry_run = true
        · rw [congrArg Ctx.calls (runEpisodeDeletions_dry env limit job.id
            (sortDescBy (fun cand => cand.age) cands) _ (by exact hdt))] at hx
          rw [Ctx.record_calls] at hx
          simp only [List.nil_append] at hx
          rcases List.mem_append.mp hx with h2 | h2
          · exact Or.inl h2
          · exact Or.inr (Or.inl (fetch_calls_getOnly env _ _ _ x h2))
        · rw [Bool.not_eq_true] at hdt
          rw [runEpisodeDeletions_calls env limit job.id
            (sortDescBy (fun cand => cand.age) cands) _ (by exact hdt)] at hx
          rcases List.mem_append.mp hx with h2 | h2
          · rw [Ctx.record_calls] at h2
            simp only [List.nil_append] at h2
            rcases List.mem_append.mp h2 with h3 | h3
            · exact Or.inl h3
            · exact Or.inr (Or.inl (fetch_calls_getOnly env _ _ _ x h3))
          · exact Or.inr (Or.inr (epDeleteCalls_shape env _ x h2))
      rcases hsplit _ hmem with h2 | h2 | h2
      · simp at h2
      · obtain ⟨i, bb, hx⟩ := h2
        exact RemoteCall.noConfusion hx
      · obtain ⟨i, bb, hx⟩ := h2
        exact RemoteCall.noConfusion hx
  obtain ⟨c4, hkey, hdry4, hnos⟩ := hmain
  have hcalls : (run_job env limit job store0).calls =
      c4.calls ++ (sonarrTagged env job).flatMap (secondPassCalls env job.dry_run) := by
    rw [run_job_calls, hkey]
    show (runSecondPass env limit job.id (sonarrTagged env job) c4).calls = _
    rw [runSecondPass_calls, hdry4]
  refine ⟨⟨c4.calls, hcalls, hnos⟩, ?_, ?_, ?_⟩
  · intro s hs
    rw [hcalls]
    refine List.mem_append_right _ ?_
    rw [List.mem_flatMap]
    exact ⟨s, hs, query_mem_spc env job.dry_run s⟩
  · intro sid b
    rw [hcalls, List.mem_append]
    constructor
    · rintro (hmem | hmem)
      · exact absurd hmem (hnos sid b)
      · rw [List.mem_flatMap] at hmem
        obtain ⟨s, hs, hsp⟩ := hmem
        obtain ⟨h1, h2, h3, h4⟩ :=
          (deleteSeries_mem_spc env job.dry_run s sid b).mp hsp
        subst h1
        exact ⟨⟨s, hs, rfl⟩, h2, h3, h4⟩
    · rintro ⟨⟨s, hs, hsid⟩, h2, h3, h4⟩
      refine Or.inr ?_
      rw [List.mem_flatMap]
      refine ⟨s, hs, ?_⟩
      refine (deleteSeries_mem_spc env job.dry_run s sid b).mpr
        ⟨hsid, ?_, h3, ?_⟩
      · rw [hsid]; exact h2
      · rw [hsid]; exact h4
  · intro hdt
    refine ⟨c4.rs.deleted, ?_⟩
    rw [run_job_finalState, hkey, runFinalRS_deleted]
    show (runSecondPass env limit job.id (sonarrTagged env job) c4).rs.deleted = _
    exact runSecondPass_dry_deleted env limit job.id (sonarrTagged env job) c4
      (by rw [hdry4]; exact hdt)

/-- Claim C2 witness: on a concrete `episodes_then_series` run whose one
tagged series has no remaining episode files, the series delete endpoint
is invoked. -/
theorem C2_second_pass_witness :
    RemoteCall.deleteSeries 5
        (exceptOk (sonarrEnvC2.sonarr.deleteSeries 5)) ∈
      (run_job sonarrEnvC2 20 (jobS false "episodes_then_series") emptyStore).calls := by
  have h := C2_second_pass sonarrEnvC2 20 (jobS false "episodes_then_series")
    emptyStore rfl rfl (by decide) (by decide) (by decide) [] (by decide)
  exact (h.2.2.1 5 (exceptOk (sonarrEnvC2.sonarr.deleteSeries 5))).mpr
    ⟨⟨taggedSeries1, by decide, rfl⟩, by decide, rfl, rfl⟩

end Mediareaparr
